import Mathlib

/-!
A shallow embedding of the vennboxd recommendation engine
(`src/utils.py`, consumed by `src/app.py`).

Modelling conventions:
* Python floats are modelled as exact rationals (`ℚ`); the score
  arithmetic of the engine only ever adds and multiplies the fixed
  constants 100, 100/2, 100/3, 100/4 and a caller weight.
* Python dicts are insertion-ordered association lists, Python sets are
  insertion-ordered duplicate-free lists (CPython iterates a given set in
  a fixed order within one process, which is the granularity at which the
  engine is re-run).
* The external TMDB gateway (`tmdb_search_movie`, network part of
  `tmdb_get_recommendations`, `tmdb_get_popular`) and the letterboxd
  catalog gateway (`letterboxdpy` + `extract_movies_by_slug`) are passed
  in as explicit oracle parameters; `random.shuffle` is passed in as an
  explicit permutation oracle.
* Raw letterboxd field values (which may be ints, floats, numeric or
  non-numeric strings, or missing) are modelled by `RawVal`.
-/

namespace Vennboxd

/-- A raw Python value in a letterboxd record: `null` covers both a
missing key and an explicit `None`; `num` is an `int`/`float` value;
`numStr` is a string `float()` can parse; `badStr` is a string that fails
numeric parsing. -/
inductive RawVal where
  | null : RawVal
  | num (q : ℚ) : RawVal
  | numStr (q : ℚ) : RawVal
  | badStr (s : String) : RawVal
deriving DecidableEq, Repr

/-- Python truthiness of a raw value (`None`, `0`, `0.0` and `""` are
falsy; any nonempty string is truthy). -/
def RawVal.truthy : RawVal → Bool
  | .null => false
  | .num q => decide (q ≠ 0)
  | .numStr _ => true
  | .badStr s => decide (s ≠ "")

/-- `float(x)`: succeeds on numbers and numeric strings, raises (here:
`none`) on `None` and non-numeric strings. -/
def floatToRat : RawVal → Option ℚ
  | .null => none
  | .num q => some q
  | .numStr q => some q
  | .badStr _ => none

/-- Python `int(q)` on a float: truncation toward zero. -/
def ratToInt (q : ℚ) : Int := Int.tdiv q.num q.den

/-- `int(x)`: floats truncate toward zero, strings are accepted only when
they are integer literals, everything else raises (here: `none`). -/
def intOfRaw : RawVal → Option Int
  | .null => none
  | .num q => some (ratToInt q)
  | .numStr q => if q.den = 1 then some q.num else none
  | .badStr _ => none

/-- `int(v) if v else None`, wrapped in `try/except` that coerces any
parse failure to `None` — the year coercion used throughout
`fetch_user_data` and the watchlist pass. -/
def yearOfRaw (v : RawVal) : Option Int :=
  if v.truthy then intOfRaw v else none

/-- Python `s.strip()`: drop leading and trailing whitespace. -/
def pyStrip (s : String) : String :=
  String.mk (((s.data.dropWhile Char.isWhitespace).reverse.dropWhile Char.isWhitespace).reverse)

/-- Python `s.lower()`. -/
def pyLower (s : String) : String := String.mk (s.data.map Char.toLower)

/-- Title normalisation `title.strip().lower()` used for the watched
index. -/
def normTitle (s : String) : String := pyLower (pyStrip s)

/-- Python `str.title()`: uppercase the first letter of each run of
letters, lowercase the rest. -/
def pyTitleAux : Bool → List Char → List Char
  | _, [] => []
  | prev, c :: cs =>
    (if c.isAlpha then (if prev then c.toLower else c.toUpper) else c) :: pyTitleAux c.isAlpha cs

/-- Python `s.title()`. -/
def pyStrTitle (s : String) : String := String.mk (pyTitleAux false s.data)

/-- `slug.replace("-", " ").title()` — the humanised fallback title for a
slug. -/
def humanize (slug : String) : String := pyStrTitle (slug.replace "-" " ")

/-- Python `d[k] = v` on an insertion-ordered dict (keys are unique, so
the first match is the only match). -/
def dictInsert {α : Type} (k : String) (v : α) : List (String × α) → List (String × α)
  | [] => [(k, v)]
  | p :: t => if p.1 = k then (k, v) :: t else p :: dictInsert k v t

/-- Python `s.add(x)` on an insertion-ordered set. -/
def insertNew {α : Type} [DecidableEq α] (x : α) (l : List α) : List α :=
  if x ∈ l then l else l ++ [x]

/-- Dict lookup (first — and with `dictInsert` discipline, only — entry
with the key). -/
def lookupD {α : Type} (k : String) : List (String × α) → Option α
  | [] => none
  | p :: t => if p.1 = k then some p.2 else lookupD k t

/-- `k in d`. -/
def containsKey {α : Type} (k : String) (m : List (String × α)) : Bool :=
  m.any (fun p => p.1 = k)

/-- One film record from the letterboxd gateway as consumed by the
`films` loop of `fetch_user_data`; the loop reads `name`, `year`,
`liked` and `rating`.  `name = none` models a missing name key. -/
structure RawFilm where
  name : Option String
  year : RawVal
  liked : Bool
  rating : RawVal
deriving DecidableEq, Repr

/-- The value stored in the `ratings` dict by `fetch_user_data`
(`{"score": int(val), "name": info.get("name"), "year": info.get("year")}`);
also the shape of the mock record used for liked-only seeds, which
carries no year key (`year = none`). -/
structure RatingData where
  score : Int
  name : Option String
  year : Option RawVal
deriving DecidableEq, Repr

/-- One watchlist entry as consumed by the watchlist pass; the pass reads
`details.get("name", "Unknown")` and `details.get("year")`, and merges the
raw record over the freshly created candidate's details.  `none` models a
missing key. -/
structure WLDetails where
  name : Option String
  year : Option RawVal
deriving DecidableEq, Repr

/-- Accumulator of the single loop over `films.items()` in
`fetch_user_data`: the watched title/year index, the ratings dict and the
liked set. -/
structure FilmsAcc where
  watched_index : List (String × Option Int)
  ratings : List (String × RatingData)
  liked : List String
deriving DecidableEq, Repr

/-- The body of the `for slug, info in films.items()` loop of
`fetch_user_data`: index the normalised title with its coerced year (only
when the title is nonempty), record the liked flag, and store a rating
entry when `float(rating)` parses to a positive value (the stored score
is `int(val)`; parse failures are skipped). -/
def processFilm (acc : FilmsAcc) (p : String × RawFilm) : FilmsAcc :=
  let info := p.2
  let t := normTitle (info.name.getD "")
  let y := yearOfRaw info.year
  let acc1 := if t ≠ "" then { acc with watched_index := insertNew (t, y) acc.watched_index } else acc
  let acc2 := if info.liked then { acc1 with liked := insertNew p.1 acc1.liked } else acc1
  if info.rating.truthy then
    match floatToRat info.rating with
    | some q =>
      if 0 < q then
        let entry : RatingData := { score := ratToInt q, name := info.name, year := some info.year }
        { acc2 with ratings := dictInsert p.1 entry acc2.ratings }
      else acc2
    | none => acc2
  else acc2

/-- The whole `films` loop of `fetch_user_data`. -/
def processFilms (films : List (String × RawFilm)) : FilmsAcc :=
  films.foldl processFilm { watched_index := [], ratings := [], liked := [] }

/-- Raw per-user payload of the catalog gateway, already normalised by
`extract_movies_by_slug` into slug-keyed association lists. -/
structure UserRaw where
  watchlist : List (String × WLDetails)
  films : List (String × RawFilm)
deriving DecidableEq, Repr

/-- The external catalog gateway (`letterboxdpy`): per username, either
the raw data or the text of the exception raised during the fetch. -/
def CatalogGateway : Type := String → Except String UserRaw

/-- The per-user profile built by `fetch_user_data`. -/
structure UserData where
  watchlist : List (String × WLDetails)
  watched : List String
  ratings : List (String × RatingData)
  liked : List String
  watched_index : List (String × Option Int)
deriving DecidableEq, Repr

/-- An empty profile. -/
def emptyUserData : UserData :=
  { watchlist := [], watched := [], ratings := [], liked := [], watched_index := [] }

/-- The profile built from successfully fetched raw data. -/
def mkProfile (raw : UserRaw) : UserData :=
  let acc := processFilms raw.films
  { watchlist := raw.watchlist,
    watched := raw.films.foldl (fun s p => insertNew p.1 s) [],
    ratings := acc.ratings,
    liked := acc.liked,
    watched_index := acc.watched_index }

/-- `fetch_user_data`: on a gateway failure return empty structures plus
the error message; otherwise build the profile from the raw data. -/
def fetch_user_data (g : CatalogGateway) (u : String) : UserData × Option String :=
  match g u with
  | .error e => (emptyUserData, some e)
  | .ok raw => (mkProfile raw, none)

/-- State of a `RecommendationEngine` after construction/fetch:
`user_data`, the recorded per-user fetch errors, the group-wide watched
index, and whether a TMDB api key is configured (`self.tmdb_api_key`
truthiness). -/
structure EngineState where
  user_data : List (String × UserData)
  errors : List String
  global_watched_index : List (String × Option Int)
  hasKey : Bool
deriving DecidableEq, Repr

/-- Python truthiness of the `err` slot returned by `fetch_user_data`. -/
def errTruthy : Option String → Bool
  | none => false
  | some s => decide (s ≠ "")

/-- One iteration of the user loop of `RecommendationEngine.fetch_data`:
record `f"{user}: {err}"` on failure, otherwise store the profile and
union its watched index into the global index. -/
def fetch_data_step (g : CatalogGateway) (st : EngineState) (u : String) : EngineState :=
  let r := fetch_user_data g u
  if errTruthy r.2 then
    { st with errors := st.errors ++ [u ++ ": " ++ r.2.getD ""] }
  else
    { st with user_data := dictInsert u r.1 st.user_data,
              global_watched_index :=
                r.1.watched_index.foldl (fun s p => insertNew p s) st.global_watched_index }

/-- `RecommendationEngine.fetch_data` run from a freshly constructed
engine. -/
def fetch_data (g : CatalogGateway) (usernames : List String) (hasKey : Bool) : EngineState :=
  usernames.foldl (fetch_data_step g)
    { user_data := [], errors := [], global_watched_index := [], hasKey := hasKey }

/-- `RecommendationEngine.is_watched`: empty titles are never watched,
otherwise the exact `(stripped lowercased title, year)` pair is looked up
in the group index. -/
def is_watched (gidx : List (String × Option Int)) (title : String) (year : Option Int) : Bool :=
  if title = "" then false
  else decide ((normTitle title, year) ∈ gidx)

/-- A TMDB record as seen by the engine; `year` is the
`int(release_date[:4])` coercion applied by the passes, performed here at
the gateway boundary. -/
structure TmdbObj where
  id : Int
  title : String
  year : Option Int
  poster_path : Option String
  vote_average : Option ℚ
deriving DecidableEq, Repr

/-- The external TMDB gateway, memoised and deterministic within a run.
`search` receives the year argument exactly as the engine passes it (the
enrichment step passes the raw details year). -/
structure TmdbGateway where
  search : String → RawVal → Option TmdbObj
  recsFor : Int → List TmdbObj
  popular : List TmdbObj

/-- `tmdb_search_movie` (network, caching and the year-less retry live in
the gateway); `RawVal.null` is the `None` year argument. -/
def tmdb_search_movie (orc : TmdbGateway) (title : String) (year : RawVal) : Option TmdbObj :=
  orc.search title year

/-- `tmdb_get_recommendations`: one page of recommendations, truncated to
the top 12 in the source. -/
def tmdb_get_recommendations (orc : TmdbGateway) (movieId : Int) : List TmdbObj :=
  (orc.recsFor movieId).take 12

/-- `tmdb_get_popular` (first page). -/
def tmdb_get_popular (orc : TmdbGateway) : List TmdbObj :=
  orc.popular

/-- `tmdb_image_url` with the default `w500` size. -/
def tmdb_image_url : Option String → Option String
  | none => none
  | some p => some ("https://image.tmdb.org/t/p/w500" ++ p)

/-- One similarity contribution
`{"points": pts, "from_movie": seed_title, "from_score": seed_score}`. -/
structure Contribution where
  points : ℚ
  from_movie : String
  from_score : Int
deriving DecidableEq, Repr

/-- The value of the `year` slot of a candidate's details dict: it is the
coerced `int | None` year at creation, but the merge of the raw watchlist
record (`details.update(details_obj)`) overwrites it with the raw field
when that key is present. -/
inductive YearVal where
  | parsed (y : Option Int) : YearVal
  | raw (v : RawVal) : YearVal
deriving DecidableEq, Repr

/-- The `int | None` year a details year slot denotes (the raw form
re-coerces exactly as the pass that stored it coerced). -/
def effYear : YearVal → Option Int
  | .parsed y => y
  | .raw v => yearOfRaw v

/-- A candidate under construction (the per-id dict built by
`generate_recommendations`). -/
structure Candidate where
  name : String
  yearV : YearVal
  url : String
  watchlist_users : List String
  similar_contributions : List (String × List Contribution)
  sources : List String
  tmdb : Option TmdbObj
deriving DecidableEq, Repr

/-- The candidates dict: insertion-ordered, keyed by `"tmdb:<id>"` or the
letterboxd slug. -/
abbrev CandList := List (String × Candidate)

/-- Keys of the candidates dict, in insertion order. -/
def keysOf (m : CandList) : List String := m.map Prod.fst

/-- Update the entry at a key in place (keys are unique, so the first
match is the only match). -/
def mapAt (k : String) (f : Candidate → Candidate) : CandList → CandList
  | [] => []
  | p :: t => if p.1 = k then (p.1, f p.2) :: t else p :: mapAt k f t

/-- A freshly created candidate: the base details (`name`, `year`, `url`)
plus the `details.update(details_obj)` merge of the raw watchlist record,
performed only at creation (first writer wins). -/
def mkCand (title : String) (year : Option Int) (url : String)
    (det : Option WLDetails) (tmdb : Option TmdbObj) : Candidate :=
  let base : Candidate :=
    { name := title, yearV := .parsed year, url := url,
      watchlist_users := [], similar_contributions := [], sources := [], tmdb := tmdb }
  match det with
  | none => base
  | some d =>
    { base with
      name := (match d.name with | some s => s | none => base.name),
      yearV := (match d.year with | some v => .raw v | none => base.yearV) }

/-- `get_or_create` from `generate_recommendations`: reject (strict
filter) when the title/year is watched; otherwise ensure a candidate
exists under the key.  The boolean is `true` exactly when the Python
function returns a candidate for the caller to mutate. -/
def get_or_create (gidx : List (String × Option Int)) (m : CandList) (key title : String)
    (year : Option Int) (url : String) (det : Option WLDetails) (tmdb : Option TmdbObj) :
    CandList × Bool :=
  if is_watched gidx title year then (m, false)
  else if containsKey key m then (m, true)
  else (m ++ [(key, mkCand title year url det tmdb)], true)

/-- `cand = get_or_create(...)` followed by the caller's in-place
mutation of the returned candidate (`if cand: ...`). -/
def contribute (gidx : List (String × Option Int)) (m : CandList) (key title : String)
    (year : Option Int) (url : String) (det : Option WLDetails) (tmdb : Option TmdbObj)
    (mf : Candidate → Candidate) : CandList :=
  let r := get_or_create gidx m key title year url det tmdb
  if r.2 then mapAt key mf r.1 else r.1

/-- The watchlist pass's mutation of a candidate: add the user, tag the
source. -/
def wlMut (user : String) (c : Candidate) : Candidate :=
  { c with watchlist_users := insertNew user c.watchlist_users,
           sources := insertNew "Watchlist" c.sources }

/-- Append a contribution under a user: initialise the user's list when
absent, then append (`if user not in …: … = []` followed by `append`);
dict keys are unique, so the first match is the only match. -/
def addContrib (user : String) (ct : Contribution) :
    List (String × List Contribution) → List (String × List Contribution)
  | [] => [(user, [ct])]
  | p :: t => if p.1 = user then (p.1, p.2 ++ [ct]) :: t else p :: addContrib user ct t

/-- The similarity pass's mutation: tag the source, append the
contribution. -/
def simMut (user : String) (ct : Contribution) (c : Candidate) : Candidate :=
  { c with sources := insertNew "Similar" c.sources,
           similar_contributions := addContrib user ct c.similar_contributions }

/-- The popularity pass's mutation: tag the source. -/
def popMut (c : Candidate) : Candidate :=
  { c with sources := insertNew "Popular" c.sources }

/-- `int(details.get("year")) if details.get("year") else None` on a
watchlist entry. -/
def wlYear (d : WLDetails) : Option Int :=
  match d.year with
  | some v => yearOfRaw v
  | none => none

/-- One `(slug, details)` iteration of the watchlist pass: coerce
title/year, resolve a TMDB key when an api key is configured, and
contribute under `"tmdb:<id>"` or the slug. -/
def wlStep (st : EngineState) (orc : TmdbGateway) (user : String) (m : CandList)
    (p : String × WLDetails) : CandList :=
  let d := p.2
  let title := d.name.getD "Unknown"
  let year := wlYear d
  let tmdbObj :=
    if st.hasKey then
      tmdb_search_movie orc title (match year with | some y => RawVal.num y | none => RawVal.null)
    else none
  let key := match tmdbObj with
    | some t => "tmdb:" ++ toString t.id
    | none => p.1
  contribute st.global_watched_index m key title year
    ("https://letterboxd.com/film/" ++ p.1 ++ "/") (some d) tmdbObj (wlMut user)

/-- Pass 1: populate candidates from every user's watchlist. -/
def pass1 (st : EngineState) (orc : TmdbGateway) (use_watchlist : Bool) (m : CandList) : CandList :=
  if use_watchlist then
    st.user_data.foldl (fun acc q => q.2.watchlist.foldl (wlStep st orc q.1) acc) m
  else m

/-- `min_rating_threshold` of the similarity pass. -/
def min_rating_threshold : Int := 8

/-- A seed of the similarity pass: `(slug, rating, r_data)`. -/
abbrev Seed := String × Int × RatingData

/-- The seed list of one user before shuffling: ratings at or above the
threshold, backfilled with liked-but-unrated slugs (treated as score 10,
with a humanised mock record) when fewer than 5 rated seeds exist. -/
def seedsOf (ud : UserData) : List Seed :=
  let base := ud.ratings.foldl
    (fun s p => if min_rating_threshold ≤ p.2.score then s ++ [(p.1, p.2.score, p.2)] else s) []
  if base.length < 5 then
    base ++ ud.liked.foldl
      (fun s slug =>
        if ud.ratings.any (fun p => p.1 = slug) then s
        else s ++ [(slug, 10, { score := 10, name := some (humanize slug), year := none })]) []
  else base

/-- `seed_info.get("name") or seed_slug.replace("-", " ").title()`. -/
def seedTitle (sd : Seed) : String :=
  match sd.2.2.name with
  | some s => if s ≠ "" then s else humanize sd.1
  | none => humanize sd.1

/-- Points of a similarity contribution as a step function of the seed's
rating (`base_n = 100`). -/
def pointsOf (s : Int) : ℚ :=
  let base_n : ℚ := 100
  if s = 10 then base_n
  else if s = 9 then base_n / 2
  else if s = 8 then base_n / 3
  else base_n / 4

/-- One recommendation record of the similarity pass: contribute under
`"tmdb:<id>"` with the Similar tag and one contribution for the user. -/
def simRecStep (gidx : List (String × Option Int)) (user : String) (seedObj : TmdbObj)
    (seedScore : Int) (m : CandList) (r : TmdbObj) : CandList :=
  contribute gidx m ("tmdb:" ++ toString r.id) r.title r.year
    ("https://www.themoviedb.org/movie/" ++ toString r.id) none (some r)
    (simMut user { points := pointsOf seedScore, from_movie := seedObj.title,
                   from_score := seedScore })

/-- One seed of the similarity pass: resolve the seed by year-less title
search (skip when unresolved) and fold its recommendations. -/
def simSeedStep (gidx : List (String × Option Int)) (orc : TmdbGateway) (user : String)
    (m : CandList) (sd : Seed) : CandList :=
  match tmdb_search_movie orc (seedTitle sd) RawVal.null with
  | none => m
  | some ts => (tmdb_get_recommendations orc ts.id).foldl (simRecStep gidx user ts sd.2.1) m

/-- The similarity pass for one user: shuffle the seeds, keep the first
6, fold. -/
def userSimPass (gidx : List (String × Option Int)) (orc : TmdbGateway)
    (shuffle : List Seed → List Seed) (m : CandList) (p : String × UserData) : CandList :=
  ((shuffle (seedsOf p.2)).take 6).foldl (simSeedStep gidx orc p.1) m

/-- Pass 2: similarity expansion, only with an api key. -/
def pass2 (st : EngineState) (orc : TmdbGateway) (shuffle : List Seed → List Seed)
    (use_similar : Bool) (m : CandList) : CandList :=
  if use_similar && st.hasKey then
    st.user_data.foldl (userSimPass st.global_watched_index orc shuffle) m
  else m

/-- One popular record: contribute under `"tmdb:<id>"` with the Popular
tag. -/
def popStep (gidx : List (String × Option Int)) (m : CandList) (p : TmdbObj) : CandList :=
  contribute gidx m ("tmdb:" ++ toString p.id) p.title p.year "" none (some p) popMut

/-- Pass 3: popularity backstop, guarded by the flag, the api key and
fewer than 20 candidates after passes 1–2. -/
def pass3 (st : EngineState) (orc : TmdbGateway) (use_popular : Bool) (m : CandList) : CandList :=
  if use_popular && st.hasKey && decide (m.length < 20) then
    (tmdb_get_popular orc).foldl (popStep st.global_watched_index) m
  else m

/-- The raw value the enrichment step reads back from the details year
slot (`d.get("year")`), fed to the search oracle verbatim (`RawVal.null`
is a Python `None` year). -/
def yearValToRaw : YearVal → RawVal
  | .parsed none => RawVal.null
  | .parsed (some y) => RawVal.num y
  | .raw v => v

/-- Enrichment of one candidate still lacking TMDB data: one title/year
search, attach the result when found. -/
def enrichCand (orc : TmdbGateway) (c : Candidate) : Candidate :=
  if c.tmdb.isSome then c
  else if c.name = "" then c
  else match tmdb_search_movie orc c.name (yearValToRaw c.yearV) with
    | some f => { c with tmdb := some f }
    | none => c

/-- The enrichment step over all candidates (identity without an api
key). -/
def enrich (st : EngineState) (orc : TmdbGateway) (m : CandList) : CandList :=
  if st.hasKey then m.map (fun p => (p.1, enrichCand orc p.2)) else m

/-- The candidates dict after the three passes and enrichment — the
aggregation part of `generate_recommendations`. -/
def buildCandidates (st : EngineState) (orc : TmdbGateway) (shuffle : List Seed → List Seed)
    (use_watchlist use_similar use_popular : Bool) : CandList :=
  enrich st orc (pass3 st orc use_popular
    (pass2 st orc shuffle use_similar (pass1 st orc use_watchlist [])))

/-- The watchlist component weight `N`. -/
def score_N : ℚ := 100

/-- `sum(c["points"] for c in contribs)` — one user's contribution sum. -/
def userSum (l : List Contribution) : ℚ := (l.map Contribution.points).sum

/-- The similarity total of a candidate: the plain per-user sums, summed
across users (no normalisation). -/
def simTotal (c : Candidate) : ℚ :=
  (c.similar_contributions.map (fun p => userSum p.2)).sum

/-- The score of one candidate as computed by the calculation loop:
watchlist count times `N`, plus the similarity total weighted by the
discovery weight. -/
def scoreCandidate (dw : ℚ) (c : Candidate) : ℚ :=
  (c.watchlist_users.length : ℚ) * score_N + simTotal c * dw

/-- `max(contribs, key=points)` rendered as the per-user justification
line (Python `max` keeps the first maximal element). -/
def simReasonOf : List Contribution → Option String
  | [] => none
  | h :: t =>
    let best := t.foldl (fun acc c => if acc.points < c.points then c else acc) h
    some ("Similar to " ++ best.from_movie ++ " (" ++ toString best.from_score ++ "/10)")

/-- One entry of the final results list. -/
structure RankedResult where
  id : String
  title : String
  year : YearVal
  url : String
  score : ℚ
  poster : Option String
  sources : List String
  debugWatchlist : Option String
  debugSimilar : Option String
  raw_tmdb : Option TmdbObj
deriving DecidableEq, Repr

/-- The calculation loop body for one candidate: score, justification
lines and output shape. -/
def finalize (dw : ℚ) (p : String × Candidate) : RankedResult :=
  let c := p.2
  let wl_count := c.watchlist_users.length
  let reasons := c.similar_contributions.filterMap (fun q => simReasonOf q.2)
  { id := p.1,
    title := c.name,
    year := c.yearV,
    url := c.url,
    score := scoreCandidate dw c,
    poster := (match c.tmdb with
      | some t => tmdb_image_url t.poster_path
      | none => none),
    sources := c.sources,
    debugWatchlist :=
      if 0 < wl_count then
        some (toString wl_count ++ " users (" ++ String.intercalate ", " c.watchlist_users ++ ")")
      else none,
    debugSimilar :=
      if reasons.isEmpty then none
      else some (String.intercalate ", " (reasons.take 3)),
    raw_tmdb := c.tmdb }

/-- `RecommendationEngine.generate_recommendations`: empty without
fetched user data; otherwise build candidates, score each, sort by score
descending (stable) and keep the top 100. -/
def generate_recommendations (st : EngineState) (orc : TmdbGateway)
    (shuffle : List Seed → List Seed) (use_watchlist use_similar use_popular : Bool)
    (discovery_weight : ℚ) : List RankedResult :=
  if st.user_data.isEmpty then []
  else
    (((buildCandidates st orc shuffle use_watchlist use_similar use_popular).map
        (finalize discovery_weight)).mergeSort
      (fun a b => decide (b.score ≤ a.score))).take 100

/-! ### Association-list lemmas -/

theorem lookupD_isSome_iff {α : Type} (k : String) (m : List (String × α)) :
    (lookupD k m).isSome = containsKey k m := by
  induction m with
  | nil => rfl
  | cons p t ih =>
    by_cases h : p.1 = k
    · simp [lookupD, containsKey, List.any_cons, h]
    · simpa [lookupD, containsKey, List.any_cons, h] using ih

theorem lookupD_append {α : Type} (k : String) (m l : List (String × α)) :
    lookupD k (m ++ l) =
      (match lookupD k m with
       | some v => some v
       | none => lookupD k l) := by
  induction m with
  | nil => simp [lookupD]
  | cons p t ih =>
    by_cases h : p.1 = k
    · simp [lookupD, h]
    · simpa [lookupD, h] using ih

theorem keysOf_append (m l : CandList) : keysOf (m ++ l) = keysOf m ++ keysOf l := by
  simp [keysOf]

theorem containsKey_iff_mem_keys {α : Type} (k : String) (m : List (String × α)) :
    containsKey k m = true ↔ k ∈ m.map Prod.fst := by
  simp only [containsKey, List.any_eq_true, decide_eq_true_eq, List.mem_map]

theorem containsKey_eq_false_iff {α : Type} (k : String) (m : List (String × α)) :
    containsKey k m = false ↔ k ∉ m.map Prod.fst := by
  rw [← containsKey_iff_mem_keys]
  cases containsKey k m <;> simp

theorem keysOf_mapAt (k : String) (f : Candidate → Candidate) (m : CandList) :
    keysOf (mapAt k f m) = keysOf m := by
  induction m with
  | nil => rfl
  | cons p t ih =>
    by_cases h : p.1 = k
    · simp [mapAt, keysOf, h]
    · simp only [mapAt, if_neg h, keysOf, List.map_cons]
      rw [show List.map Prod.fst (mapAt k f t) = keysOf (mapAt k f t) from rfl, ih]
      rfl

theorem lookupD_mapAt (k key : String) (f : Candidate → Candidate) (m : CandList) :
    lookupD k (mapAt key f m) = if k = key then (lookupD k m).map f else lookupD k m := by
  induction m with
  | nil => by_cases h : k = key <;> simp [lookupD, mapAt, h]
  | cons p t ih =>
    by_cases hpk : p.1 = key
    · simp only [mapAt, if_pos hpk]
      by_cases hk : p.1 = k
      · have hkk : k = key := by rw [← hk, hpk]
        simp [lookupD, hk, hkk]
      · have hkk : ¬ k = key := fun h => hk (hpk.trans h.symm)
        simp [lookupD, hk, hkk]
    · simp only [mapAt, if_neg hpk]
      by_cases hk : p.1 = k
      · have hkk : ¬ k = key := fun h => hpk (hk.trans h)
        simp [lookupD, hk, hkk]
      · simp only [lookupD, if_neg hk]
        exact ih

theorem mapAt_of_not_mem_keys (k : String) (f : Candidate → Candidate) (m : CandList)
    (h : k ∉ keysOf m) : mapAt k f m = m := by
  induction m with
  | nil => rfl
  | cons p t ih =>
    rw [keysOf, List.map_cons, List.mem_cons] at h
    push_neg at h
    have h1 : ¬ p.1 = k := fun hh => h.1 hh.symm
    simp only [mapAt, if_neg h1]
    rw [ih (by simpa [keysOf] using h.2)]

theorem mapAt_append_of_not_mem (k : String) (f : Candidate → Candidate) (m l : CandList)
    (h : k ∉ keysOf m) : mapAt k f (m ++ l) = m ++ mapAt k f l := by
  induction m with
  | nil => rfl
  | cons p t ih =>
    rw [keysOf, List.map_cons, List.mem_cons] at h
    push_neg at h
    have h1 : ¬ p.1 = k := fun hh => h.1 hh.symm
    show mapAt k f (p :: (t ++ l)) = p :: (t ++ mapAt k f l)
    simp only [mapAt, if_neg h1]
    rw [ih (by simpa [keysOf] using h.2)]

/-! ### `contribute` case lemmas -/

theorem contribute_watched (gidx : List (String × Option Int)) (m : CandList)
    (key title : String) (year : Option Int) (url : String) (det : Option WLDetails)
    (tmdb : Option TmdbObj) (mf : Candidate → Candidate)
    (h : is_watched gidx title year = true) :
    contribute gidx m key title year url det tmdb mf = m := by
  simp [contribute, get_or_create, h]

theorem contribute_existing (gidx : List (String × Option Int)) (m : CandList)
    (key title : String) (year : Option Int) (url : String) (det : Option WLDetails)
    (tmdb : Option TmdbObj) (mf : Candidate → Candidate)
    (hw : is_watched gidx title year = false) (hc : containsKey key m = true) :
    contribute gidx m key title year url det tmdb mf = mapAt key mf m := by
  simp [contribute, get_or_create, hw, hc]

theorem contribute_fresh (gidx : List (String × Option Int)) (m : CandList)
    (key title : String) (year : Option Int) (url : String) (det : Option WLDetails)
    (tmdb : Option TmdbObj) (mf : Candidate → Candidate)
    (hw : is_watched gidx title year = false) (hc : containsKey key m = false) :
    contribute gidx m key title year url det tmdb mf
      = m ++ [(key, mf (mkCand title year url det tmdb))] := by
  simp only [contribute, get_or_create, hw, Bool.false_eq_true, if_false, hc, if_true]
  rw [mapAt_append_of_not_mem _ _ _ _ ((containsKey_eq_false_iff key m).mp hc)]
  simp [mapAt]

theorem lookupD_contribute (gidx : List (String × Option Int)) (m : CandList)
    (key title : String) (year : Option Int) (url : String) (det : Option WLDetails)
    (tmdb : Option TmdbObj) (mf : Candidate → Candidate) (k : String) :
    lookupD k (contribute gidx m key title year url det tmdb mf) =
      if is_watched gidx title year then lookupD k m
      else if k = key then some (mf ((lookupD key m).getD (mkCand title year url det tmdb)))
      else lookupD k m := by
  by_cases hw : is_watched gidx title year
  · simp [contribute_watched _ _ _ _ _ _ _ _ _ hw, hw]
  · have hw' : is_watched gidx title year = false := by simpa using hw
    rw [if_neg hw]
    rcases hcc : containsKey key m with _ | _
    · have hnone : lookupD key m = none := by
        rcases hl : lookupD key m with _ | c
        · rfl
        · have hs := lookupD_isSome_iff key m
          rw [hl, hcc] at hs
          cases hs
      rw [contribute_fresh _ _ _ _ _ _ _ _ _ hw' hcc, lookupD_append]
      by_cases hk : k = key
      · subst hk
        rw [hnone]
        simp [lookupD]
      · rw [if_neg hk]
        have hko : ¬ key = k := fun hh => hk hh.symm
        cases hlm : lookupD k m with
        | none => simp [lookupD, hko]
        | some c => simp
    · rw [contribute_existing _ _ _ _ _ _ _ _ _ hw' hcc, lookupD_mapAt]
      by_cases hk : k = key
      · subst hk
        have hsome : ∃ c, lookupD k m = some c := by
          rcases hl : lookupD k m with _ | c
          · have hs := lookupD_isSome_iff k m
            rw [hl, hcc] at hs
            cases hs
          · exact ⟨c, rfl⟩
        rcases hsome with ⟨c, hc⟩
        simp [hc]
      · simp [hk]

theorem keys_nodup_contribute (gidx : List (String × Option Int)) (m : CandList)
    (key title : String) (year : Option Int) (url : String) (det : Option WLDetails)
    (tmdb : Option TmdbObj) (mf : Candidate → Candidate)
    (h : (keysOf m).Nodup) :
    (keysOf (contribute gidx m key title year url det tmdb mf)).Nodup := by
  by_cases hw : is_watched gidx title year
  · rwa [contribute_watched _ _ _ _ _ _ _ _ _ hw]
  · have hw' : is_watched gidx title year = false := by simpa using hw
    rcases hcc : containsKey key m with _ | _
    · rw [contribute_fresh _ _ _ _ _ _ _ _ _ hw' hcc, keysOf_append]
      have hnot : key ∉ keysOf m := (containsKey_eq_false_iff key m).mp hcc
      refine List.Nodup.append h (by simp [keysOf]) ?_
      intro a ha hb
      have hak : a = key := by simpa [keysOf] using hb
      subst hak
      exact hnot ha
    · rwa [contribute_existing _ _ _ _ _ _ _ _ _ hw' hcc, keysOf_mapAt]

/-! ### Per-entry invariants through the passes -/

/-- Every entry of the candidates dict satisfies `P`. -/
def AllP (P : Candidate → Prop) (m : CandList) : Prop := ∀ p ∈ m, P p.2

theorem allP_mapAt {P : Candidate → Prop} (k : String) (f : Candidate → Candidate)
    (hf : ∀ c, P c → P (f c)) :
    ∀ m : CandList, AllP P m → AllP P (mapAt k f m) := by
  intro m
  induction m with
  | nil => intro _ p hp; cases hp
  | cons p t ih =>
    intro h q hq
    by_cases hpk : p.1 = k
    · simp only [mapAt, if_pos hpk] at hq
      rcases List.mem_cons.mp hq with rfl | hq'
      · exact hf _ (h p (by simp))
      · exact h q (List.mem_cons_of_mem _ hq')
    · simp only [mapAt, if_neg hpk] at hq
      rcases List.mem_cons.mp hq with rfl | hq'
      · exact h _ (by simp)
      · exact ih (fun r hr => h r (List.mem_cons_of_mem _ hr)) q hq'

theorem allP_contribute {P : Candidate → Prop} (gidx : List (String × Option Int))
    (m : CandList) (key title : String) (year : Option Int) (url : String)
    (det : Option WLDetails) (tmdb : Option TmdbObj) (mf : Candidate → Candidate)
    (h : AllP P m) (hf : ∀ c, P c → P (mf c))
    (hnew : is_watched gidx title year = false → P (mkCand title year url det tmdb)) :
    AllP P (contribute gidx m key title year url det tmdb mf) := by
  by_cases hw : is_watched gidx title year
  · rwa [contribute_watched _ _ _ _ _ _ _ _ _ hw]
  · have hw' : is_watched gidx title year = false := by simpa using hw
    rcases hcc : containsKey key m with _ | _
    · rw [contribute_fresh _ _ _ _ _ _ _ _ _ hw' hcc]
      intro p hp
      rcases List.mem_append.mp hp with hl | hr
      · exact h p hl
      · rcases List.mem_singleton.mp hr with rfl
        exact hf _ (hnew hw')
    · rw [contribute_existing _ _ _ _ _ _ _ _ _ hw' hcc]
      exact allP_mapAt key mf hf m h

theorem foldl_preserve {σ : Type} {Q : σ → Prop} {β : Type} (f : σ → β → σ)
    (hstep : ∀ m x, Q m → Q (f m x)) :
    ∀ (l : List β) (m : σ), Q m → Q (l.foldl f m) := by
  intro l
  induction l with
  | nil => intro m hm; simpa using hm
  | cons x t ih => intro m hm; exact ih _ (hstep m x hm)

/-- The inductive invariant of the candidates dict: every candidate's
stored title and (effective) year were checked against the watched index,
and every similarity contribution carries exactly the points dictated by
its recorded seed score. -/
def EntryInv (gidx : List (String × Option Int)) (c : Candidate) : Prop :=
  is_watched gidx c.name (effYear c.yearV) = false ∧
  ∀ q ∈ c.similar_contributions, ∀ ct ∈ q.2, ct.points = pointsOf ct.from_score

theorem forall_addContrib {Q : Contribution → Prop} (user : String) (ct : Contribution)
    (hct : Q ct) :
    ∀ l : List (String × List Contribution), (∀ q ∈ l, ∀ c ∈ q.2, Q c) →
      ∀ q ∈ addContrib user ct l, ∀ c ∈ q.2, Q c := by
  intro l
  induction l with
  | nil =>
    intro _ q hq
    rcases List.mem_singleton.mp hq with rfl
    intro c hc
    rcases List.mem_singleton.mp hc with rfl
    exact hct
  | cons p t ih =>
    intro hl q hq
    by_cases hpk : p.1 = user
    · simp only [addContrib, if_pos hpk] at hq
      rcases List.mem_cons.mp hq with rfl | hq'
      · intro c hc
        rcases List.mem_append.mp hc with h1 | h2
        · exact hl p (by simp) c h1
        · rcases List.mem_singleton.mp h2 with rfl
          exact hct
      · exact hl q (List.mem_cons_of_mem _ hq')
    · simp only [addContrib, if_neg hpk] at hq
      rcases List.mem_cons.mp hq with rfl | hq'
      · exact hl _ (by simp)
      · exact ih (fun r hr => hl r (List.mem_cons_of_mem _ hr)) q hq'

theorem entryInv_wlMut (gidx : List (String × Option Int)) (u : String) (c : Candidate)
    (h : EntryInv gidx c) : EntryInv gidx (wlMut u c) := h

theorem entryInv_popMut (gidx : List (String × Option Int)) (c : Candidate)
    (h : EntryInv gidx c) : EntryInv gidx (popMut c) := h

theorem entryInv_simMut (gidx : List (String × Option Int)) (user : String)
    (ct : Contribution) (hct : ct.points = pointsOf ct.from_score) (c : Candidate)
    (h : EntryInv gidx c) : EntryInv gidx (simMut user ct c) :=
  ⟨h.1, forall_addContrib user ct hct _ h.2⟩

theorem mkCand_contribs (t : String) (y : Option Int) (url : String) (det : Option WLDetails)
    (tm : Option TmdbObj) : (mkCand t y url det tm).similar_contributions = [] := by
  cases det <;> rfl

theorem mkCand_wl_name (d : WLDetails) (y : Option Int) (url : String) (tm : Option TmdbObj) :
    (mkCand (d.name.getD "Unknown") y url (some d) tm).name = d.name.getD "Unknown" := by
  obtain ⟨dn, dy⟩ := d
  cases dn <;> rfl

theorem mkCand_wl_effYear (d : WLDetails) (t : String) (url : String) (tm : Option TmdbObj) :
    effYear (mkCand t (wlYear d) url (some d) tm).yearV = wlYear d := by
  obtain ⟨dn, dy⟩ := d
  cases dy <;> rfl

theorem enrichCand_eq (orc : TmdbGateway) (c : Candidate) :
    enrichCand orc c = c ∨ ∃ f, enrichCand orc c = { c with tmdb := some f } := by
  unfold enrichCand
  split
  · exact Or.inl rfl
  · split
    · exact Or.inl rfl
    · cases tmdb_search_movie orc c.name (yearValToRaw c.yearV) with
      | none => exact Or.inl rfl
      | some f => exact Or.inr ⟨f, rfl⟩

theorem entryInv_wlStep (st : EngineState) (orc : TmdbGateway) (user : String)
    (m : CandList) (p : String × WLDetails)
    (h : AllP (EntryInv st.global_watched_index) m) :
    AllP (EntryInv st.global_watched_index) (wlStep st orc user m p) := by
  simp only [wlStep]
  refine allP_contribute _ _ _ _ _ _ _ _ _ h (fun c hc => entryInv_wlMut _ _ _ hc) ?_
  intro hw
  constructor
  · rw [mkCand_wl_name, mkCand_wl_effYear]
    exact hw
  · rw [mkCand_contribs]
    intro q hq
    cases hq

theorem entryInv_simRecStep (gidx : List (String × Option Int)) (user : String)
    (ts : TmdbObj) (sc : Int) (m : CandList) (r : TmdbObj)
    (h : AllP (EntryInv gidx) m) :
    AllP (EntryInv gidx) (simRecStep gidx user ts sc m r) := by
  simp only [simRecStep]
  refine allP_contribute _ _ _ _ _ _ _ _ _ h
    (fun c hc => entryInv_simMut _ _ _ rfl _ hc) ?_
  intro hw
  constructor
  · exact hw
  · rw [mkCand_contribs]
    intro q hq
    cases hq

theorem entryInv_popStep (gidx : List (String × Option Int)) (m : CandList) (p : TmdbObj)
    (h : AllP (EntryInv gidx) m) :
    AllP (EntryInv gidx) (popStep gidx m p) := by
  simp only [popStep]
  refine allP_contribute _ _ _ _ _ _ _ _ _ h (fun c hc => entryInv_popMut _ _ hc) ?_
  intro hw
  constructor
  · exact hw
  · rw [mkCand_contribs]
    intro q hq
    cases hq

theorem entryInv_buildCandidates (st : EngineState) (orc : TmdbGateway)
    (sh : List Seed → List Seed) (uw us up : Bool) :
    AllP (EntryInv st.global_watched_index) (buildCandidates st orc sh uw us up) := by
  have h0 : AllP (EntryInv st.global_watched_index) ([] : CandList) := by
    intro p hp
    cases hp
  have h1 : AllP (EntryInv st.global_watched_index) (pass1 st orc uw []) := by
    unfold pass1
    split
    · exact foldl_preserve _ (fun m q hm =>
        foldl_preserve _ (fun m' x hm' => entryInv_wlStep st orc q.1 m' x hm') _ _ hm) _ _ h0
    · exact h0
  have h2 : AllP (EntryInv st.global_watched_index)
      (pass2 st orc sh us (pass1 st orc uw [])) := by
    unfold pass2
    split
    · refine foldl_preserve _ (fun m q hm => ?_) _ _ h1
      unfold userSimPass
      refine foldl_preserve _ (fun m' sd hm' => ?_) _ _ hm
      unfold simSeedStep
      cases tmdb_search_movie orc (seedTitle sd) RawVal.null with
      | none => exact hm'
      | some ts =>
        exact foldl_preserve _ (fun m'' r hm'' =>
          entryInv_simRecStep _ _ _ _ _ _ hm'') _ _ hm'
    · exact h1
  have h3 : AllP (EntryInv st.global_watched_index)
      (pass3 st orc up (pass2 st orc sh us (pass1 st orc uw []))) := by
    unfold pass3
    split
    · exact foldl_preserve _ (fun m p hm => entryInv_popStep _ _ _ hm) _ _ h2
    · exact h2
  unfold buildCandidates enrich
  split
  · intro p hp
    rcases List.mem_map.mp hp with ⟨q, hq, hpq⟩
    rcases enrichCand_eq orc q.2 with he | ⟨f, he⟩
    · rw [← hpq]
      simpa [he] using h3 q hq
    · rw [← hpq]
      have := h3 q hq
      simp only [he]
      exact this
  · exact h3

theorem keysOf_enrich (st : EngineState) (orc : TmdbGateway) (m : CandList) :
    keysOf (enrich st orc m) = keysOf m := by
  unfold enrich
  split
  · simp [keysOf]
  · rfl

theorem keys_nodup_buildCandidates (st : EngineState) (orc : TmdbGateway)
    (sh : List Seed → List Seed) (uw us up : Bool) :
    (keysOf (buildCandidates st orc sh uw us up)).Nodup := by
  have h0 : (keysOf ([] : CandList)).Nodup := by simp [keysOf]
  have h1 : (keysOf (pass1 st orc uw [])).Nodup := by
    unfold pass1
    split
    · refine foldl_preserve (Q := fun m : CandList => (keysOf m).Nodup) _ (fun m q hm => ?_) _ _ h0
      refine foldl_preserve (Q := fun m : CandList => (keysOf m).Nodup) _ (fun m' x hm' => ?_) _ _ hm
      simp only [wlStep]
      exact keys_nodup_contribute _ _ _ _ _ _ _ _ _ hm'
    · exact h0
  have h2 : (keysOf (pass2 st orc sh us (pass1 st orc uw []))).Nodup := by
    unfold pass2
    split
    · refine foldl_preserve (Q := fun m : CandList => (keysOf m).Nodup) _ (fun m q hm => ?_) _ _ h1
      unfold userSimPass
      refine foldl_preserve (Q := fun m : CandList => (keysOf m).Nodup) _ (fun m' sd hm' => ?_) _ _ hm
      unfold simSeedStep
      cases tmdb_search_movie orc (seedTitle sd) RawVal.null with
      | none => exact hm'
      | some ts =>
        refine foldl_preserve (Q := fun m : CandList => (keysOf m).Nodup) _ (fun m'' r hm'' => ?_) _ _ hm'
        simp only [simRecStep]
        exact keys_nodup_contribute _ _ _ _ _ _ _ _ _ hm''
    · exact h1
  have h3 : (keysOf (pass3 st orc up (pass2 st orc sh us (pass1 st orc uw [])))).Nodup := by
    unfold pass3
    split
    · refine foldl_preserve (Q := fun m : CandList => (keysOf m).Nodup) _ (fun m p hm => ?_) _ _ h2
      simp only [popStep]
      exact keys_nodup_contribute _ _ _ _ _ _ _ _ _ hm
    · exact h2
  unfold buildCandidates
  rw [keysOf_enrich]
  exact h3


/-! ### Score lemmas -/

theorem sum_userSum (l : List (String × List Contribution)) :
    (l.map (fun q => userSum q.2)).sum
      = ((l.flatMap (fun q => q.2)).map Contribution.points).sum := by
  induction l with
  | nil => simp
  | cons p t ih =>
    simp only [List.map_cons, List.sum_cons, List.flatMap_cons, List.map_append,
      List.sum_append, userSum] at ih ⊢
    rw [ih]

theorem simTotal_eq_flat (c : Candidate) :
    simTotal c = ((c.similar_contributions.flatMap (fun q => q.2)).map Contribution.points).sum :=
  sum_userSum c.similar_contributions

theorem pointsOf_pos (s : Int) : 0 < pointsOf s := by
  unfold pointsOf
  split
  · norm_num
  · split
    · norm_num
    · split <;> norm_num

theorem mem_generate (st : EngineState) (orc : TmdbGateway) (sh : List Seed → List Seed)
    (uw us up : Bool) (dw : ℚ) (r : RankedResult)
    (hr : r ∈ generate_recommendations st orc sh uw us up dw) :
    ∃ p ∈ buildCandidates st orc sh uw us up, r = finalize dw p := by
  unfold generate_recommendations at hr
  split at hr
  · cases hr
  · have h1 := List.take_subset 100 _ hr
    have h2 := (List.mergeSort_perm
      ((buildCandidates st orc sh uw us up).map (finalize dw))
      (fun a b => decide (b.score ≤ a.score))).mem_iff.mp h1
    rcases List.mem_map.mp h2 with ⟨p, hp, hfp⟩
    exact ⟨p, hp, hfp.symm⟩

/-- C2: every result of `generate_recommendations` scores its candidate as
`watchlistUserCount * 100` plus `discovery_weight` times the plain sum of
all similarity-contribution points over all users (no per-user or
cross-candidate normalisation), and with `discovery_weight = 0` the score
is exactly the watchlist component. -/
theorem C2_score_formula (st : EngineState) (orc : TmdbGateway) (sh : List Seed → List Seed)
    (uw us up : Bool) (dw : ℚ) (r : RankedResult)
    (hr : r ∈ generate_recommendations st orc sh uw us up dw) :
    ∃ p ∈ buildCandidates st orc sh uw us up,
      r = finalize dw p ∧
      r.score = (p.2.watchlist_users.length : ℚ) * 100 +
        dw * ((p.2.similar_contributions.flatMap (fun q => q.2)).map Contribution.points).sum ∧
      (dw = 0 → r.score = (p.2.watchlist_users.length : ℚ) * 100) := by
  rcases mem_generate st orc sh uw us up dw r hr with ⟨p, hp, hfp⟩
  have hscore : r.score = scoreCandidate dw p.2 := by rw [hfp]; rfl
  refine ⟨p, hp, hfp, ?_, ?_⟩
  · rw [hscore, scoreCandidate, simTotal_eq_flat, score_N]
    ring
  · intro h0
    rw [hscore, scoreCandidate, score_N, h0]
    ring

/-- C1: no watched title ever appears among the candidates: for every
entry of the mapping built by aggregation, `is_watched` on its stored
title and effective year is false, and (for the nonempty titles, the only
ones `fetch_data` can index) its normalised (title, year) pair is not a
member of the global watched index. -/
theorem C1_no_watched_candidate (st : EngineState) (orc : TmdbGateway)
    (sh : List Seed → List Seed) (uw us up : Bool) (p : String × Candidate)
    (hp : p ∈ buildCandidates st orc sh uw us up) :
    is_watched st.global_watched_index p.2.name (effYear p.2.yearV) = false ∧
    (p.2.name ≠ "" →
      (normTitle p.2.name, effYear p.2.yearV) ∉ st.global_watched_index) := by
  have h := entryInv_buildCandidates st orc sh uw us up p hp
  refine ⟨h.1, fun hne hmem => ?_⟩
  have h1 := h.1
  unfold is_watched at h1
  rw [if_neg hne] at h1
  simp only [decide_eq_false_iff_not] at h1
  exact h1 hmem

/-- C6: in the similarity pass the points of every contribution are the
fixed step function `pointsOf` of the recorded seed rating, and the table
reads 10 → 100, 9 → 50, 8 → 100/3 and any other admitted value → 25. -/
theorem C6_points_step (st : EngineState) (orc : TmdbGateway) (sh : List Seed → List Seed)
    (uw us up : Bool) (p : String × Candidate)
    (hp : p ∈ buildCandidates st orc sh uw us up) :
    (∀ q ∈ p.2.similar_contributions, ∀ ct ∈ q.2, ct.points = pointsOf ct.from_score) ∧
    pointsOf 10 = 100 ∧ pointsOf 9 = 50 ∧ pointsOf 8 = 100 / 3 ∧
    ∀ s : Int, s ≠ 10 → s ≠ 9 → s ≠ 8 → pointsOf s = 25 := by
  refine ⟨(entryInv_buildCandidates st orc sh uw us up p hp).2, by norm_num [pointsOf],
    by norm_num [pointsOf], by norm_num [pointsOf], ?_⟩
  intro s h10 h9 h8
  unfold pointsOf
  rw [if_neg h10, if_neg h9, if_neg h8]
  norm_num

/-- C5: adding a previously-absent watchlist user to a candidate raises
its score by exactly 100 at any discovery weight; and for any candidate
produced by aggregation, raising the discovery weight from 0 to 1 never
lowers the score and strictly raises it when the candidate has at least
one similarity contribution. -/
theorem C5_score_monotonicity :
    (∀ (dw : ℚ) (u : String) (c : Candidate), u ∉ c.watchlist_users →
      scoreCandidate dw (wlMut u c) = scoreCandidate dw c + 100) ∧
    ∀ (st : EngineState) (orc : TmdbGateway) (sh : List Seed → List Seed) (uw us up : Bool)
      (p : String × Candidate), p ∈ buildCandidates st orc sh uw us up →
      scoreCandidate 0 p.2 ≤ scoreCandidate 1 p.2 ∧
      (p.2.similar_contributions.flatMap (fun q => q.2) ≠ [] →
        scoreCandidate 0 p.2 < scoreCandidate 1 p.2) := by
  constructor
  · intro dw u c hu
    have hins : insertNew u c.watchlist_users = c.watchlist_users ++ [u] := by
      simp [insertNew, hu]
    have hsim : simTotal (wlMut u c) = simTotal c := rfl
    unfold scoreCandidate score_N
    rw [hsim]
    have hlen : ((wlMut u c).watchlist_users.length : ℚ)
        = (c.watchlist_users.length : ℚ) + 1 := by
      show ((insertNew u c.watchlist_users).length : ℚ) = _
      rw [hins]
      push_cast [List.length_append, List.length_singleton]
      ring
    rw [hlen]
    ring
  · intro st orc sh uw us up p hp
    have hinv := (entryInv_buildCandidates st orc sh uw us up p hp).2
    have hpos : ∀ x ∈ ((p.2.similar_contributions.flatMap (fun q => q.2)).map
        Contribution.points), 0 < x := by
      intro x hx
      rcases List.mem_map.mp hx with ⟨ct, hct, rfl⟩
      rcases List.mem_flatMap.mp hct with ⟨q, hq, hctq⟩
      rw [hinv q hq ct hctq]
      exact pointsOf_pos ct.from_score
    have hnonneg : 0 ≤ simTotal p.2 := by
      rw [simTotal_eq_flat]
      exact List.sum_nonneg (fun x hx => le_of_lt (hpos x hx))
    constructor
    · unfold scoreCandidate
      have : simTotal p.2 * 0 ≤ simTotal p.2 * 1 := by
        rcases lt_or_eq_of_le hnonneg with h | h
        · nlinarith
        · rw [← h]; norm_num
      linarith
    · intro hne
      have hppos : 0 < simTotal p.2 := by
        rw [simTotal_eq_flat]
        refine List.sum_pos _ hpos ?_
        simp only [ne_eq, List.map_eq_nil_iff]
        exact hne
      unfold scoreCandidate
      nlinarith



theorem mkCand_sources (t : String) (y : Option Int) (url : String) (det : Option WLDetails)
    (tm : Option TmdbObj) : (mkCand t y url det tm).sources = [] := by
  cases det <;> rfl

/-- C4: contributions resolving to the same key merge into exactly one
candidate whose sources are the union of the contributed tags (here a
watchlist and a similarity contribution on a fresh key), and the
aggregation mapping never holds two entries for one key. -/
theorem C4_dedup_merge :
    (∀ (st : EngineState) (orc : TmdbGateway) (sh : List Seed → List Seed) (uw us up : Bool),
      (keysOf (buildCandidates st orc sh uw us up)).Nodup) ∧
    ∀ (gidx : List (String × Option Int)) (m : CandList) (key t1 t2 : String)
      (y1 y2 : Option Int) (url1 url2 : String) (d1 : Option WLDetails)
      (tm1 tm2 : Option TmdbObj) (u1 user : String) (ct : Contribution),
      containsKey key m = false →
      is_watched gidx t1 y1 = false → is_watched gidx t2 y2 = false →
      (keysOf (contribute gidx (contribute gidx m key t1 y1 url1 d1 tm1 (wlMut u1))
          key t2 y2 url2 none tm2 (simMut user ct))).count key = 1 ∧
      ∃ c, lookupD key (contribute gidx (contribute gidx m key t1 y1 url1 d1 tm1 (wlMut u1))
          key t2 y2 url2 none tm2 (simMut user ct)) = some c ∧
        ∀ s, s ∈ c.sources ↔ (s = "Watchlist" ∨ s = "Similar") := by
  refine ⟨keys_nodup_buildCandidates, ?_⟩
  intro gidx m key t1 t2 y1 y2 url1 url2 d1 tm1 tm2 u1 user ct hcc hw1 hw2
  have hm1 : contribute gidx m key t1 y1 url1 d1 tm1 (wlMut u1)
      = m ++ [(key, wlMut u1 (mkCand t1 y1 url1 d1 tm1))] :=
    contribute_fresh _ _ _ _ _ _ _ _ _ hw1 hcc
  have hkeys1 : keysOf (m ++ [(key, wlMut u1 (mkCand t1 y1 url1 d1 tm1))])
      = keysOf m ++ [key] := by
    rw [keysOf_append]
    rfl
  have hc1 : containsKey key (m ++ [(key, wlMut u1 (mkCand t1 y1 url1 d1 tm1))]) = true := by
    rw [containsKey_iff_mem_keys]
    rw [show List.map Prod.fst (m ++ [(key, wlMut u1 (mkCand t1 y1 url1 d1 tm1))])
        = keysOf m ++ [key] from hkeys1]
    simp
  have hm2 : contribute gidx (contribute gidx m key t1 y1 url1 d1 tm1 (wlMut u1))
      key t2 y2 url2 none tm2 (simMut user ct)
      = mapAt key (simMut user ct) (m ++ [(key, wlMut u1 (mkCand t1 y1 url1 d1 tm1))]) := by
    rw [hm1]
    exact contribute_existing _ _ _ _ _ _ _ _ _ hw2 hc1
  constructor
  · rw [hm2, keysOf_mapAt, hkeys1, List.count_append]
    have h0 : (keysOf m).count key = 0 :=
      List.count_eq_zero_of_not_mem ((containsKey_eq_false_iff key m).mp hcc)
    rw [h0]
    simp
  · have hlm : lookupD key m = none := by
      rcases hl : lookupD key m with _ | c
      · rfl
      · have hs := lookupD_isSome_iff key m
        rw [hl, hcc] at hs
        cases hs
    have hl1 : lookupD key (m ++ [(key, wlMut u1 (mkCand t1 y1 url1 d1 tm1))])
        = some (wlMut u1 (mkCand t1 y1 url1 d1 tm1)) := by
      rw [lookupD_append, hlm]
      simp [lookupD]
    refine ⟨simMut user ct (wlMut u1 (mkCand t1 y1 url1 d1 tm1)), ?_, ?_⟩
    · rw [hm2, lookupD_mapAt, if_pos rfl, hl1]
      rfl
    · intro s
      have hsrc : (simMut user ct (wlMut u1 (mkCand t1 y1 url1 d1 tm1))).sources
          = ["Watchlist", "Similar"] := by
        show insertNew "Similar" (insertNew "Watchlist" (mkCand t1 y1 url1 d1 tm1).sources) = _
        rw [mkCand_sources]
        simp [insertNew]
      rw [hsrc]
      simp

/-- C8: the popularity pass runs exactly when it is enabled, an api key is
configured and fewer than 20 candidates exist after passes 1–2; when 20 or
more candidates exist it contributes nothing (enabling it does not change
the aggregation output), and when the guard holds it folds the popular
page over the candidate set. -/
theorem C8_popular_guard (st : EngineState) (orc : TmdbGateway) (sh : List Seed → List Seed)
    (uw us : Bool) :
    (20 ≤ (pass2 st orc sh us (pass1 st orc uw [])).length →
      buildCandidates st orc sh uw us true = buildCandidates st orc sh uw us false) ∧
    (st.hasKey = true → (pass2 st orc sh us (pass1 st orc uw [])).length < 20 →
      pass3 st orc true (pass2 st orc sh us (pass1 st orc uw []))
        = (tmdb_get_popular orc).foldl (popStep st.global_watched_index)
            (pass2 st orc sh us (pass1 st orc uw []))) ∧
    (pass3 st orc false (pass2 st orc sh us (pass1 st orc uw []))
      = pass2 st orc sh us (pass1 st orc uw [])) ∧
    (st.hasKey = false → pass3 st orc true (pass2 st orc sh us (pass1 st orc uw []))
      = pass2 st orc sh us (pass1 st orc uw [])) := by
  refine ⟨?_, ?_, ?_, ?_⟩
  · intro h
    unfold buildCandidates
    have h3t : pass3 st orc true (pass2 st orc sh us (pass1 st orc uw []))
        = pass2 st orc sh us (pass1 st orc uw []) := by
      unfold pass3
      rw [if_neg]
      simp only [Bool.true_and, Bool.and_eq_true, decide_eq_true_eq, not_and]
      intro _
      exact Nat.not_lt.mpr h
    have h3f : pass3 st orc false (pass2 st orc sh us (pass1 st orc uw []))
        = pass2 st orc sh us (pass1 st orc uw []) := by
      unfold pass3
      simp
    rw [h3t, h3f]
  · intro hk hlt
    unfold pass3
    rw [hk]
    simp [hlt]
  · unfold pass3
    simp
  · intro hk
    unfold pass3
    rw [hk]
    simp

/-- C10: when no user catalog data was fetched successfully the engine
returns the empty list for every source-option combination and every
discovery weight, creating no candidate. -/
theorem C10_empty_without_data (st : EngineState) (orc : TmdbGateway)
    (sh : List Seed → List Seed) (uw us up : Bool) (dw : ℚ)
    (h : st.user_data = []) :
    generate_recommendations st orc sh uw us up dw = [] := by
  unfold generate_recommendations
  rw [h]
  rfl



/-! ### `fetch_data` lemmas -/

theorem mem_insertNew {α : Type} [DecidableEq α] (x y : α) (l : List α)
    (h : y ∈ insertNew x l) : y ∈ l ∨ y = x := by
  unfold insertNew at h
  split at h
  · exact Or.inl h
  · rcases List.mem_append.mp h with h1 | h2
    · exact Or.inl h1
    · exact Or.inr (List.mem_singleton.mp h2)

theorem mem_insertNew_fold {α : Type} [DecidableEq α] (idx : List α) :
    ∀ (s0 : List α) (y : α), y ∈ idx.foldl (fun s p => insertNew p s) s0 →
      y ∈ s0 ∨ y ∈ idx := by
  induction idx with
  | nil => intro s0 y h; exact Or.inl h
  | cons x t ih =>
    intro s0 y h
    rcases ih (insertNew x s0) y h with h1 | h2
    · rcases mem_insertNew x y s0 h1 with hl | hr
      · exact Or.inl hl
      · exact Or.inr (by simp [hr])
    · exact Or.inr (List.mem_cons_of_mem _ h2)

theorem mem_dictInsert {α : Type} (k : String) (v : α) :
    ∀ (m : List (String × α)) (p : String × α), p ∈ dictInsert k v m →
      p = (k, v) ∨ p ∈ m := by
  intro m
  induction m with
  | nil =>
    intro p hp
    exact Or.inl (List.mem_singleton.mp hp)
  | cons q t ih =>
    intro p hp
    by_cases hq : q.1 = k
    · simp only [dictInsert, if_pos hq] at hp
      rcases List.mem_cons.mp hp with rfl | hp'
      · exact Or.inl rfl
      · exact Or.inr (List.mem_cons_of_mem _ hp')
    · simp only [dictInsert, if_neg hq] at hp
      rcases List.mem_cons.mp hp with rfl | hp'
      · exact Or.inr (by simp)
      · rcases ih p hp' with h1 | h2
        · exact Or.inl h1
        · exact Or.inr (List.mem_cons_of_mem _ h2)

theorem lookupD_dictInsert {α : Type} (k key : String) (v : α) (m : List (String × α)) :
    lookupD k (dictInsert key v m) = if k = key then some v else lookupD k m := by
  induction m with
  | nil =>
    by_cases h : k = key
    · simp [dictInsert, lookupD, h]
    · have hko : ¬ key = k := fun hh => h hh.symm
      simp [dictInsert, lookupD, hko, h]
  | cons p t ih =>
    by_cases hpk : p.1 = key
    · simp only [dictInsert, if_pos hpk]
      by_cases h : k = key
      · subst h
        simp [lookupD]
      · have hko : ¬ key = k := fun hh => h hh.symm
        have hpk2 : ¬ p.1 = k := fun hh => h (hh.symm.trans hpk)
        simp only [lookupD, if_neg hko, if_neg hpk2, if_neg h]
    · simp only [dictInsert, if_neg hpk]
      by_cases hk : p.1 = k
      · have hnk : ¬ k = key := fun hh => hpk (hk.trans hh)
        simp [lookupD, hk, hnk]
      · simp only [lookupD, if_neg hk]
        exact ih

theorem errors_mono (g : CatalogGateway) :
    ∀ (l : List String) (st : EngineState) (x : String), x ∈ st.errors →
      x ∈ (l.foldl (fetch_data_step g) st).errors := by
  intro l
  induction l with
  | nil => intro st x h; exact h
  | cons a t ih =>
    intro st x h
    refine ih _ x ?_
    simp only [fetch_data_step]
    split
    · exact List.mem_append_left _ h
    · exact h

theorem fetch_step_error (g : CatalogGateway) (st : EngineState) (u e : String)
    (hgu : g u = Except.error e) (he : e ≠ "") :
    fetch_data_step g st u = { st with errors := st.errors ++ [u ++ ": " ++ e] } := by
  simp only [fetch_data_step, fetch_user_data]
  rw [show g u = Except.error e from hgu]
  simp [errTruthy, he]

theorem fetch_step_error_empty (g : CatalogGateway) (st : EngineState) (u : String)
    (hgu : g u = Except.error "") :
    fetch_data_step g st u
      = { st with user_data := dictInsert u emptyUserData st.user_data } := by
  simp only [fetch_data_step, fetch_user_data]
  rw [show g u = Except.error "" from hgu]
  simp [errTruthy, emptyUserData]

theorem fetch_step_ok (g : CatalogGateway) (st : EngineState) (u : String) (raw : UserRaw)
    (hgu : g u = Except.ok raw) :
    fetch_data_step g st u =
      { st with user_data := dictInsert u (mkProfile raw) st.user_data,
                global_watched_index := (mkProfile raw).watched_index.foldl
                  (fun s p => insertNew p s) st.global_watched_index } := by
  simp only [fetch_data_step, fetch_user_data]
  rw [show g u = Except.ok raw from hgu]
  simp [errTruthy]

theorem fetch_error_recorded (g : CatalogGateway) (u e : String)
    (hgu : g u = Except.error e) (he : e ≠ "") :
    ∀ (l : List String) (st : EngineState), u ∈ l →
      (u ++ ": " ++ e) ∈ (l.foldl (fetch_data_step g) st).errors := by
  intro l
  induction l with
  | nil => intro st h; cases h
  | cons a t ih =>
    intro st h
    rcases List.mem_cons.mp h with rfl | hmem
    · refine errors_mono g t _ _ ?_
      rw [fetch_step_error g st u e hgu he]
      exact List.mem_append_right _ (by simp)
    · exact ih _ hmem

theorem fetch_user_absent (g : CatalogGateway) (u e : String)
    (hgu : g u = Except.error e) (he : e ≠ "") :
    ∀ (l : List String) (st : EngineState), (∀ p ∈ st.user_data, p.1 ≠ u) →
      ∀ p ∈ (l.foldl (fetch_data_step g) st).user_data, p.1 ≠ u := by
  intro l
  induction l with
  | nil => intro st h; exact h
  | cons a t ih =>
    intro st h
    refine ih _ ?_
    by_cases hau : a = u
    · subst hau
      rw [fetch_step_error g st a e hgu he]
      exact h
    · intro p hp
      simp only [fetch_data_step] at hp
      split at hp
      · exact h p hp
      · rcases mem_dictInsert _ _ _ _ hp with rfl | hp'
        · exact hau
        · exact h p hp'

theorem fetch_gidx_provenance (g : CatalogGateway) :
    ∀ (l : List String) (st : EngineState) (pr : String × Option Int),
      pr ∈ (l.foldl (fetch_data_step g) st).global_watched_index →
      pr ∈ st.global_watched_index ∨
        ∃ v raw, v ∈ l ∧ g v = Except.ok raw ∧ pr ∈ (mkProfile raw).watched_index := by
  intro l
  induction l with
  | nil => intro st pr h; exact Or.inl h
  | cons a t ih =>
    intro st pr h
    rcases ih _ pr h with h1 | ⟨v, raw, hv, hok, hpr⟩
    · cases hga : g a with
      | error e =>
        by_cases he : e = ""
        · subst he
          rw [fetch_step_error_empty g st a hga] at h1
          exact Or.inl h1
        · rw [fetch_step_error g st a e hga he] at h1
          exact Or.inl h1
      | ok raw =>
        rw [fetch_step_ok g st a raw hga] at h1
        simp only at h1
        rcases mem_insertNew_fold _ _ _ h1 with hs | hn
        · exact Or.inl hs
        · exact Or.inr ⟨a, raw, by simp, hga, hn⟩
    · exact Or.inr ⟨v, raw, List.mem_cons_of_mem _ hv, hok, hpr⟩

theorem fetch_step_lookup_pres (g : CatalogGateway) (v : String) (raw : UserRaw)
    (hok : g v = Except.ok raw) (st : EngineState) (w : String)
    (h : lookupD v st.user_data = some (mkProfile raw)) :
    lookupD v (fetch_data_step g st w).user_data = some (mkProfile raw) := by
  simp only [fetch_data_step]
  split
  · exact h
  · simp only
    rw [lookupD_dictInsert]
    by_cases hvw : v = w
    · subst hvw
      rw [if_pos rfl]
      simp only [fetch_user_data]
      rw [show g v = Except.ok raw from hok]
    · rw [if_neg hvw]
      exact h

theorem fetch_success_processed (g : CatalogGateway) (v : String) (raw : UserRaw)
    (hok : g v = Except.ok raw) :
    ∀ (l : List String) (st : EngineState), v ∈ l →
      lookupD v (l.foldl (fetch_data_step g) st).user_data = some (mkProfile raw) := by
  intro l
  induction l with
  | nil => intro st h; cases h
  | cons a t ih =>
    intro st h
    rcases List.mem_cons.mp h with rfl | hmem
    · refine foldl_preserve
        (Q := fun st' : EngineState => lookupD v st'.user_data = some (mkProfile raw))
        _ (fun st' w hq => fetch_step_lookup_pres g v raw hok st' w hq) t _ ?_
      rw [fetch_step_ok g st v raw hok]
      simp only
      rw [lookupD_dictInsert, if_pos rfl]
    · exact ih _ hmem

/-- C9: a failing per-user fetch records the message `"user: error"`
(gateway error signals are nonempty strings, per the gateway contract),
that user is absent from `user_data` — hence from all three aggregation
passes — and contributes nothing to the global watched index, while every
successfully fetched user is still processed; no per-user failure aborts
the run. -/
theorem C9_fetch_isolation (g : CatalogGateway) (users : List String) (hk : Bool)
    (u e : String) (hu : u ∈ users) (hgu : g u = Except.error e) (he : e ≠ "") :
    ((u ++ ": " ++ e) ∈ (fetch_data g users hk).errors) ∧
    (∀ p ∈ (fetch_data g users hk).user_data, p.1 ≠ u) ∧
    (∀ pr ∈ (fetch_data g users hk).global_watched_index,
      ∃ v raw, v ∈ users ∧ g v = Except.ok raw ∧ pr ∈ (mkProfile raw).watched_index) ∧
    (∀ v raw, v ∈ users → g v = Except.ok raw →
      lookupD v (fetch_data g users hk).user_data = some (mkProfile raw)) := by
  refine ⟨?_, ?_, ?_, ?_⟩
  · exact fetch_error_recorded g u e hgu he users _ hu
  · refine fetch_user_absent g u e hgu he users _ ?_
    intro p hp
    cases hp
  · intro pr hpr
    rcases fetch_gidx_provenance g users _ pr hpr with h1 | h2
    · cases h1
    · exact h2
  · intro v raw hv hok
    exact fetch_success_processed g v raw hok users _ hv



/-! ### Ratings-entry lemmas (`fetch_user_data`) -/

theorem ite_ratings (c : Prop) [Decidable c] (a b : FilmsAcc) :
    (if c then a else b).ratings = if c then a.ratings else b.ratings := by
  split <;> rfl

theorem processFilm_ratings_store (acc : FilmsAcc) (p : String × RawFilm) (q : ℚ)
    (ht : p.2.rating.truthy = true) (hf : floatToRat p.2.rating = some q) (hq : 0 < q) :
    (processFilm acc p).ratings =
      dictInsert p.1 { score := ratToInt q, name := p.2.name, year := some p.2.year }
        acc.ratings := by
  simp only [processFilm, ht, hf, if_true, hq]
  simp [ite_ratings]

theorem processFilm_ratings_skip (acc : FilmsAcc) (p : String × RawFilm)
    (h : p.2.rating.truthy = false ∨ floatToRat p.2.rating = none ∨
      ∃ q, floatToRat p.2.rating = some q ∧ ¬ 0 < q) :
    (processFilm acc p).ratings = acc.ratings := by
  rcases h with ht | hf | ⟨q, hf, hq⟩
  · simp only [processFilm, ht, Bool.false_eq_true, if_false]
    simp [ite_ratings]
  · simp only [processFilm, hf]
    simp [ite_ratings]
  · simp only [processFilm, hf, hq, if_false]
    simp [ite_ratings]

theorem ratings_lookup_foldl :
    ∀ (l : List (String × RawFilm)) (acc : FilmsAcc) (slug : String) (rd : RatingData),
      lookupD slug (l.foldl processFilm acc).ratings = some rd →
      lookupD slug acc.ratings = some rd ∨
        ∃ info q, (slug, info) ∈ l ∧ info.rating.truthy = true ∧
          floatToRat info.rating = some q ∧ 0 < q ∧
          rd = { score := ratToInt q, name := info.name, year := some info.year } := by
  intro l
  induction l with
  | nil => intro acc slug rd h; exact Or.inl h
  | cons p t ih =>
    intro acc slug rd h
    rcases ih _ slug rd h with h1 | ⟨info, q, hmem, hty, hfq, hq, hrd⟩
    · by_cases ht : p.2.rating.truthy = true
      · cases hf : floatToRat p.2.rating with
        | none =>
          rw [processFilm_ratings_skip acc p (Or.inr (Or.inl hf))] at h1
          exact Or.inl h1
        | some q =>
          by_cases hq : 0 < q
          · rw [processFilm_ratings_store acc p q ht hf hq, lookupD_dictInsert] at h1
            by_cases hsp : slug = p.1
            · rw [if_pos hsp] at h1
              rcases Option.some.inj h1 with rfl
              refine Or.inr ⟨p.2, q, ?_, ht, hf, hq, rfl⟩
              rw [hsp]
              simp
            · rw [if_neg hsp] at h1
              exact Or.inl h1
          · rw [processFilm_ratings_skip acc p (Or.inr (Or.inr ⟨q, hf, hq⟩))] at h1
            exact Or.inl h1
      · rw [processFilm_ratings_skip acc p (Or.inl (by simpa using ht))] at h1
        exact Or.inl h1
    · exact Or.inr ⟨info, q, List.mem_cons_of_mem _ hmem, hty, hfq, hq, hrd⟩

theorem ratToInt_nonneg (q : ℚ) (hq : 0 < q) : 0 ≤ ratToInt q := by
  unfold ratToInt
  have hnum : 0 ≤ q.num := le_of_lt (Rat.num_pos.mpr hq)
  have hden : 0 ≤ (q.den : Int) := Int.ofNat_nonneg q.den
  exact Int.tdiv_nonneg hnum hden

/-- C7 counterexample: a raw rating of 0.5 (letterboxd's star scale) is
truthy and parses to a positive float, so `fetch_user_data` stores it —
with normalized score `int(0.5) = 0`, which is not between 1 and 10. -/
theorem C7_cex_score_zero :
    lookupD "m" (processFilms
      [("m", { name := some "M", year := RawVal.null, liked := false,
               rating := RawVal.num (Rat.mk' 1 2) })]).ratings
      = some { score := 0, name := some "M", year := some RawVal.null } ∧
    ¬ (1 ≤ (0 : Int) ∧ (0 : Int) ≤ 10) := by
  constructor
  · decide
  · decide

/-- C7 (amended): every rating entry stored by `fetch_user_data` comes
from a film record whose raw rating is truthy and `float`-parses to a
positive value, and the stored score is that value truncated toward zero —
a nonnegative integer, stored without clamping to 1–10; malformed or
missing rating fields are skipped (and year fields are stored raw and
coerced to null where parsed) rather than raising. -/
theorem C7_rating_entries (films : List (String × RawFilm)) (slug : String) (rd : RatingData)
    (h : lookupD slug (processFilms films).ratings = some rd) :
    0 ≤ rd.score ∧
    ∃ info q, (slug, info) ∈ films ∧ info.rating.truthy = true ∧
      floatToRat info.rating = some q ∧ 0 < q ∧
      rd = { score := ratToInt q, name := info.name, year := some info.year } := by
  unfold processFilms at h
  rcases ratings_lookup_foldl films _ slug rd h with h1 | ⟨info, q, hmem, hty, hfq, hq, hrd⟩
  · cases h1
  · refine ⟨?_, info, q, hmem, hty, hfq, hq, hrd⟩
    rw [hrd]
    exact ratToInt_nonneg q hq



/-! ### Shuffle-permutation stability of aggregation (claim C3) -/

/-- The score-relevant observation of a candidate: its watchlist users
and the multiset of (user, points) pairs over all its similarity
contributions. -/
abbrev Obs : Type := List String × Multiset (String × ℚ)

/-- Observation of one candidate. -/
def obsCand (c : Candidate) : Obs :=
  (c.watchlist_users,
    ((c.similar_contributions.flatMap (fun q => q.2.map (fun ct => (q.1, ct.points)))) :
      Multiset (String × ℚ)))

/-- Observation of the whole candidates dict, as a key-indexed partial
function. -/
def obsMap (m : CandList) : String → Option Obs :=
  fun k => (lookupD k m).map obsCand

/-- An abstract aggregation event: one contribution to one key, with an
optional (user, points) payload (absent for popularity tagging). -/
structure AEvent where
  key : String
  title : String
  year : Option Int
  contrib : Option (String × ℚ)

/-- The action of one abstract event on an observation map. -/
def applyEventA (gidx : List (String × Option Int)) (e : AEvent)
    (f : String → Option Obs) : String → Option Obs :=
  if is_watched gidx e.title e.year then f
  else fun k =>
    if k = e.key then
      some (match f e.key, e.contrib with
        | none, none => ([], 0)
        | none, some up => ([], {up})
        | some o, none => o
        | some o, some up => (o.1, up ::ₘ o.2))
    else f k

/-- Folding a list of abstract events. -/
def applyEventsA (gidx : List (String × Option Int)) (es : List AEvent)
    (f : String → Option Obs) : String → Option Obs :=
  es.foldl (fun acc e => applyEventA gidx e acc) f

theorem flatPairs_addContrib (user : String) (ct : Contribution) :
    ∀ l : List (String × List Contribution),
      ((addContrib user ct l).flatMap (fun q => q.2.map (fun c' => (q.1, c'.points)))).Perm
        ((user, ct.points) :: l.flatMap (fun q => q.2.map (fun c' => (q.1, c'.points)))) := by
  intro l
  induction l with
  | nil => simp [addContrib]
  | cons p t ih =>
    by_cases hpk : p.1 = user
    · simp only [addContrib, if_pos hpk, List.flatMap_cons, List.map_append, List.map_cons,
        List.map_nil]
      rw [hpk, List.append_assoc]
      exact List.perm_middle
    · simp only [addContrib, if_neg hpk, List.flatMap_cons]
      exact (ih.append_left (p.2.map (fun c' => (p.1, c'.points)))).trans List.perm_middle

theorem obsCand_simMut (user : String) (ct : Contribution) (c : Candidate) :
    obsCand (simMut user ct c) = ((obsCand c).1, (user, ct.points) ::ₘ (obsCand c).2) := by
  unfold obsCand simMut
  simp only
  congr 1
  rw [show ((user, ct.points) ::ₘ
      ((c.similar_contributions.flatMap (fun q => q.2.map (fun ct => (q.1, ct.points)))) :
        Multiset (String × ℚ)))
    = (((user, ct.points) :: c.similar_contributions.flatMap
        (fun q => q.2.map (fun ct => (q.1, ct.points)))) : Multiset (String × ℚ)) from rfl]
  exact Quot.sound (flatPairs_addContrib user ct c.similar_contributions)

theorem obsCand_popMut (c : Candidate) : obsCand (popMut c) = obsCand c := rfl

theorem obsCand_mkCand_none (t : String) (y : Option Int) (url : String)
    (tm : Option TmdbObj) : obsCand (mkCand t y url none tm) = ([], 0) := rfl

theorem obsMap_simRecStep (gidx : List (String × Option Int)) (user : String) (ts : TmdbObj)
    (sc : Int) (m : CandList) (r : TmdbObj) :
    obsMap (simRecStep gidx user ts sc m r)
      = applyEventA gidx
          { key := "tmdb:" ++ toString r.id, title := r.title, year := r.year,
            contrib := some (user, pointsOf sc) } (obsMap m) := by
  funext k
  simp only [obsMap, simRecStep, applyEventA]
  rw [lookupD_contribute]
  by_cases hw : is_watched gidx r.title r.year
  · simp [hw, obsMap]
  · simp only [hw, Bool.false_eq_true, if_false, if_neg]
    by_cases hk : k = "tmdb:" ++ toString r.id
    · rw [if_pos hk, if_pos hk]
      cases hl : lookupD ("tmdb:" ++ toString r.id) m with
      | none => simp [obsCand_simMut, obsCand_mkCand_none]
      | some c => simp [obsCand_simMut]
    · rw [if_neg hk, if_neg hk]

theorem obsMap_popStep (gidx : List (String × Option Int)) (m : CandList) (p : TmdbObj) :
    obsMap (popStep gidx m p)
      = applyEventA gidx
          { key := "tmdb:" ++ toString p.id, title := p.title, year := p.year,
            contrib := none } (obsMap m) := by
  funext k
  simp only [obsMap, popStep, applyEventA]
  rw [lookupD_contribute]
  by_cases hw : is_watched gidx p.title p.year
  · simp [hw, obsMap]
  · simp only [hw, Bool.false_eq_true, if_false, if_neg]
    by_cases hk : k = "tmdb:" ++ toString p.id
    · rw [if_pos hk, if_pos hk]
      cases hl : lookupD ("tmdb:" ++ toString p.id) m with
      | none => rfl
      | some c => rfl
    · rw [if_neg hk, if_neg hk]



theorem applyEventA_comm (gidx : List (String × Option Int)) (e1 e2 : AEvent)
    (f : String → Option Obs) :
    applyEventA gidx e1 (applyEventA gidx e2 f) = applyEventA gidx e2 (applyEventA gidx e1 f) := by
  unfold applyEventA
  by_cases h1 : is_watched gidx e1.title e1.year
  · by_cases h2 : is_watched gidx e2.title e2.year <;> simp [h1, h2]
  · by_cases h2 : is_watched gidx e2.title e2.year
    · simp [h1, h2]
    · simp only [h1, h2, Bool.false_eq_true, if_false]
      funext k
      by_cases hk12 : e1.key = e2.key
      · rw [hk12]
        by_cases hk : k = e2.key
        · rw [if_pos hk, if_pos hk, if_pos rfl, if_pos rfl]
          rcases hfk : f e2.key with _ | o <;>
            rcases hc1 : e1.contrib with _ | u1 <;>
            rcases hc2 : e2.contrib with _ | u2 <;>
            simp [Multiset.cons_swap, ← Multiset.cons_zero]
        · rw [if_neg hk, if_neg hk, if_neg hk, if_neg hk]
      · by_cases hk1 : k = e1.key
        · have hk2 : ¬ k = e2.key := fun h => hk12 (hk1 ▸ h)
          rw [if_pos hk1, if_neg hk2, if_pos hk1]
          have : ¬ e1.key = e2.key := hk12
          rw [if_neg this]
        · by_cases hk2 : k = e2.key
          · have : ¬ e2.key = e1.key := fun h => hk12 h.symm
            rw [if_neg hk1, if_pos hk2, if_pos hk2, if_neg this]
          · rw [if_neg hk1, if_neg hk2, if_neg hk2, if_neg hk1]

theorem applyEventsA_perm (gidx : List (String × Option Int)) {es1 es2 : List AEvent}
    (hp : es1.Perm es2) (f : String → Option Obs) :
    applyEventsA gidx es1 f = applyEventsA gidx es2 f := by
  haveI : RightCommutative (fun acc e => applyEventA gidx e acc) :=
    ⟨fun a b1 b2 => applyEventA_comm gidx b2 b1 a⟩
  exact hp.foldl_eq f

/-- The abstract event of one similarity recommendation record. -/
def eventOfRec (user : String) (sc : Int) (r : TmdbObj) : AEvent :=
  { key := "tmdb:" ++ toString r.id, title := r.title, year := r.year,
    contrib := some (user, pointsOf sc) }

/-- The abstract events of one seed. -/
def eventsOfSeed (orc : TmdbGateway) (user : String) (sd : Seed) : List AEvent :=
  match tmdb_search_movie orc (seedTitle sd) RawVal.null with
  | none => []
  | some ts => (tmdb_get_recommendations orc ts.id).map (eventOfRec user sd.2.1)

/-- The abstract events of one user's seed list. -/
def eventsOfUser (orc : TmdbGateway) (user : String) (sds : List Seed) : List AEvent :=
  sds.flatMap (eventsOfSeed orc user)

theorem obsMap_foldRecs (gidx : List (String × Option Int)) (user : String) (ts : TmdbObj)
    (sc : Int) :
    ∀ (rs : List TmdbObj) (m : CandList),
      obsMap (rs.foldl (simRecStep gidx user ts sc) m)
        = applyEventsA gidx (rs.map (eventOfRec user sc)) (obsMap m) := by
  intro rs
  induction rs with
  | nil => intro m; rfl
  | cons r t ih =>
    intro m
    simp only [List.foldl_cons, List.map_cons, applyEventsA] at ih ⊢
    rw [ih, obsMap_simRecStep]
    rfl

theorem obsMap_simSeedStep (gidx : List (String × Option Int)) (orc : TmdbGateway)
    (user : String) (m : CandList) (sd : Seed) :
    obsMap (simSeedStep gidx orc user m sd)
      = applyEventsA gidx (eventsOfSeed orc user sd) (obsMap m) := by
  unfold simSeedStep eventsOfSeed
  cases tmdb_search_movie orc (seedTitle sd) RawVal.null with
  | none => rfl
  | some ts => exact obsMap_foldRecs gidx user ts sd.2.1 _ m

theorem obsMap_foldSeeds (gidx : List (String × Option Int)) (orc : TmdbGateway)
    (user : String) :
    ∀ (sds : List Seed) (m : CandList),
      obsMap (sds.foldl (simSeedStep gidx orc user) m)
        = applyEventsA gidx (eventsOfUser orc user sds) (obsMap m) := by
  intro sds
  induction sds with
  | nil => intro m; rfl
  | cons sd t ih =>
    intro m
    simp only [List.foldl_cons, eventsOfUser, List.flatMap_cons, applyEventsA,
      List.foldl_append] at ih ⊢
    rw [ih, obsMap_simSeedStep]
    rfl

theorem obsMap_userSimPass (gidx : List (String × Option Int)) (orc : TmdbGateway)
    (sh1 sh2 : List Seed → List Seed)
    (hp1 : ∀ l : List Seed, (sh1 l).Perm l) (hp2 : ∀ l : List Seed, (sh2 l).Perm l)
    (p : String × UserData) (hlen : (seedsOf p.2).length ≤ 6)
    (m1 m2 : CandList) (hobs : obsMap m1 = obsMap m2) :
    obsMap (userSimPass gidx orc sh1 m1 p) = obsMap (userSimPass gidx orc sh2 m2 p) := by
  unfold userSimPass
  have ht1 : (sh1 (seedsOf p.2)).take 6 = sh1 (seedsOf p.2) :=
    List.take_of_length_le (by rw [(hp1 _).length_eq]; exact hlen)
  have ht2 : (sh2 (seedsOf p.2)).take 6 = sh2 (seedsOf p.2) :=
    List.take_of_length_le (by rw [(hp2 _).length_eq]; exact hlen)
  rw [ht1, ht2, obsMap_foldSeeds, obsMap_foldSeeds, hobs]
  exact applyEventsA_perm gidx
    (List.Perm.flatMap_right _ ((hp1 _).trans (hp2 _).symm)) _

theorem obsMap_pass2_fold (gidx : List (String × Option Int)) (orc : TmdbGateway)
    (sh1 sh2 : List Seed → List Seed)
    (hp1 : ∀ l : List Seed, (sh1 l).Perm l) (hp2 : ∀ l : List Seed, (sh2 l).Perm l) :
    ∀ (l : List (String × UserData)) (m1 m2 : CandList),
      (∀ p ∈ l, (seedsOf p.2).length ≤ 6) → obsMap m1 = obsMap m2 →
      obsMap (l.foldl (userSimPass gidx orc sh1) m1)
        = obsMap (l.foldl (userSimPass gidx orc sh2) m2) := by
  intro l
  induction l with
  | nil => intro m1 m2 _ h; exact h
  | cons p t ih =>
    intro m1 m2 hlen h
    exact ih _ _ (fun q hq => hlen q (List.mem_cons_of_mem _ hq))
      (obsMap_userSimPass gidx orc sh1 sh2 hp1 hp2 p (hlen p (by simp)) m1 m2 h)

theorem obsMap_popFold (gidx : List (String × Option Int)) :
    ∀ (ps : List TmdbObj) (m1 m2 : CandList), obsMap m1 = obsMap m2 →
      obsMap (ps.foldl (popStep gidx) m1) = obsMap (ps.foldl (popStep gidx) m2) := by
  intro ps
  induction ps with
  | nil => intro m1 m2 h; exact h
  | cons p t ih =>
    intro m1 m2 h
    refine ih _ _ ?_
    rw [obsMap_popStep, obsMap_popStep, h]

theorem lookupD_map_snd {α β : Type} (g : α → β) (k : String) :
    ∀ m : List (String × α),
      lookupD k (m.map (fun p => (p.1, g p.2))) = (lookupD k m).map g := by
  intro m
  induction m with
  | nil => rfl
  | cons p t ih =>
    by_cases hk : p.1 = k
    · simp [lookupD, hk]
    · simp only [List.map_cons, lookupD, if_neg hk]
      exact ih

theorem obsCand_enrichCand (orc : TmdbGateway) (c : Candidate) :
    obsCand (enrichCand orc c) = obsCand c := by
  rcases enrichCand_eq orc c with h | ⟨f, h⟩
  · rw [h]
  · rw [h]
    rfl

theorem obsMap_enrich (st : EngineState) (orc : TmdbGateway) (m : CandList) :
    obsMap (enrich st orc m) = obsMap m := by
  unfold enrich
  split
  · funext k
    simp only [obsMap]
    rw [lookupD_map_snd]
    cases lookupD k m with
    | none => rfl
    | some c =>
      simp [obsCand_enrichCand]
  · rfl

/-- The score as a function of the observation. -/
def scoreOfObs (dw : ℚ) (o : Obs) : ℚ :=
  (o.1.length : ℚ) * score_N + (o.2.map Prod.snd).sum * dw

theorem scoreCandidate_obs (dw : ℚ) (c : Candidate) :
    scoreCandidate dw c = scoreOfObs dw (obsCand c) := by
  unfold scoreCandidate scoreOfObs obsCand
  congr 2
  rw [show ((c.similar_contributions.flatMap
        (fun q => q.2.map (fun ct => (q.1, ct.points)))) : Multiset (String × ℚ)).map Prod.snd
      = ((c.similar_contributions.flatMap
          (fun q => q.2.map (fun ct => (q.1, ct.points)))).map Prod.snd : Multiset ℚ) from rfl]
  rw [show (((c.similar_contributions.flatMap
        (fun q => q.2.map (fun ct => (q.1, ct.points)))).map Prod.snd : List ℚ) :
          Multiset ℚ).sum
      = ((c.similar_contributions.flatMap
          (fun q => q.2.map (fun ct => (q.1, ct.points)))).map Prod.snd).sum from rfl]
  rw [simTotal_eq_flat, List.map_flatMap, List.map_flatMap]
  have hfe : (fun (a : String × List Contribution) =>
        List.map Prod.snd (List.map (fun ct => (a.1, ct.points)) a.2))
      = fun (a : String × List Contribution) => List.map Contribution.points a.2 := by
    funext a
    rw [List.map_map]
    rfl
  rw [hfe]

theorem mem_keys_iff_obs (m : CandList) (k : String) :
    k ∈ keysOf m ↔ (obsMap m k).isSome = true := by
  rw [show (obsMap m k).isSome = (lookupD k m).isSome from by
    unfold obsMap
    cases lookupD k m <;> rfl]
  rw [lookupD_isSome_iff]
  exact (containsKey_iff_mem_keys k m).symm

theorem keys_perm_of_obs {m1 m2 : CandList} (h : obsMap m1 = obsMap m2)
    (n1 : (keysOf m1).Nodup) (n2 : (keysOf m2).Nodup) :
    (keysOf m1).Perm (keysOf m2) := by
  refine (List.perm_ext_iff_of_nodup n1 n2).mpr (fun k => ?_)
  rw [mem_keys_iff_obs, mem_keys_iff_obs, h]

theorem keys_nodup_pass1_any (st : EngineState) (orc : TmdbGateway) (uw : Bool)
    (m : CandList) (h : (keysOf m).Nodup) : (keysOf (pass1 st orc uw m)).Nodup := by
  unfold pass1
  split
  · refine foldl_preserve (Q := fun m : CandList => (keysOf m).Nodup) _ (fun m q hm => ?_) _ _ h
    refine foldl_preserve (Q := fun m : CandList => (keysOf m).Nodup) _ (fun m' x hm' => ?_) _ _ hm
    simp only [wlStep]
    exact keys_nodup_contribute _ _ _ _ _ _ _ _ _ hm'
  · exact h

theorem keys_nodup_pass2_any (st : EngineState) (orc : TmdbGateway)
    (sh : List Seed → List Seed) (us : Bool) (m : CandList) (h : (keysOf m).Nodup) :
    (keysOf (pass2 st orc sh us m)).Nodup := by
  unfold pass2
  split
  · refine foldl_preserve (Q := fun m : CandList => (keysOf m).Nodup) _ (fun m q hm => ?_) _ _ h
    unfold userSimPass
    refine foldl_preserve (Q := fun m : CandList => (keysOf m).Nodup) _ (fun m' sd hm' => ?_) _ _ hm
    unfold simSeedStep
    cases tmdb_search_movie orc (seedTitle sd) RawVal.null with
    | none => exact hm'
    | some ts =>
      refine foldl_preserve (Q := fun m : CandList => (keysOf m).Nodup) _ (fun m2 r hm2 => ?_) _ _ hm'
      simp only [simRecStep]
      exact keys_nodup_contribute _ _ _ _ _ _ _ _ _ hm2
  · exact h



/-- C3 (amended): aggregation is stable under the random seed shuffle
provided every user has at most 6 seeds, so that `seeds[:6]` keeps all of
them: any two permutation shuffles produce the same candidate-key set and
the same score for every key.  (With more than 6 seeds the shuffle selects
different seed subsets across runs and the output may differ.) -/
theorem C3_bounded_seed_stability (st : EngineState) (orc : TmdbGateway)
    (sh1 sh2 : List Seed → List Seed) (uw us up : Bool) (dw : ℚ)
    (hp1 : ∀ l : List Seed, (sh1 l).Perm l) (hp2 : ∀ l : List Seed, (sh2 l).Perm l)
    (hlen : ∀ p ∈ st.user_data, (seedsOf p.2).length ≤ 6) :
    (keysOf (buildCandidates st orc sh1 uw us up)).Perm
      (keysOf (buildCandidates st orc sh2 uw us up)) ∧
    ∀ k, (lookupD k (buildCandidates st orc sh1 uw us up)).map (scoreCandidate dw)
        = (lookupD k (buildCandidates st orc sh2 uw us up)).map (scoreCandidate dw) := by
  have hn0 : (keysOf (pass1 st orc uw [])).Nodup :=
    keys_nodup_pass1_any st orc uw [] (by simp [keysOf])
  have hn1 : (keysOf (pass2 st orc sh1 us (pass1 st orc uw []))).Nodup :=
    keys_nodup_pass2_any st orc sh1 us _ hn0
  have hn2 : (keysOf (pass2 st orc sh2 us (pass1 st orc uw []))).Nodup :=
    keys_nodup_pass2_any st orc sh2 us _ hn0
  have hobs12 : obsMap (pass2 st orc sh1 us (pass1 st orc uw []))
      = obsMap (pass2 st orc sh2 us (pass1 st orc uw [])) := by
    cases hc : (us && st.hasKey) with
    | false => simp only [pass2, hc, Bool.false_eq_true, if_false]
    | true =>
      simp only [pass2, hc, if_true]
      exact obsMap_pass2_fold st.global_watched_index orc sh1 sh2 hp1 hp2
        st.user_data _ _ hlen rfl
  have hkperm12 : (keysOf (pass2 st orc sh1 us (pass1 st orc uw []))).Perm
      (keysOf (pass2 st orc sh2 us (pass1 st orc uw []))) :=
    keys_perm_of_obs hobs12 hn1 hn2
  have hlen12 : (pass2 st orc sh1 us (pass1 st orc uw [])).length
      = (pass2 st orc sh2 us (pass1 st orc uw [])).length := by
    rw [show (pass2 st orc sh1 us (pass1 st orc uw [])).length
        = (keysOf (pass2 st orc sh1 us (pass1 st orc uw []))).length from
        (List.length_map _ _).symm,
      show (pass2 st orc sh2 us (pass1 st orc uw [])).length
        = (keysOf (pass2 st orc sh2 us (pass1 st orc uw []))).length from
        (List.length_map _ _).symm]
    exact hkperm12.length_eq
  have hobs3 : obsMap (pass3 st orc up (pass2 st orc sh1 us (pass1 st orc uw [])))
      = obsMap (pass3 st orc up (pass2 st orc sh2 us (pass1 st orc uw []))) := by
    unfold pass3
    rw [show decide ((pass2 st orc sh1 us (pass1 st orc uw [])).length < 20)
        = decide ((pass2 st orc sh2 us (pass1 st orc uw [])).length < 20) from by
      rw [hlen12]]
    cases hc : (up && st.hasKey
        && decide ((pass2 st orc sh2 us (pass1 st orc uw [])).length < 20)) with
    | false => simp only [hc, Bool.false_eq_true, if_false]; exact hobs12
    | true =>
      simp only [hc, if_true]
      exact obsMap_popFold st.global_watched_index _ _ _ hobs12
  have hobsF : obsMap (buildCandidates st orc sh1 uw us up)
      = obsMap (buildCandidates st orc sh2 uw us up) := by
    unfold buildCandidates
    rw [obsMap_enrich, obsMap_enrich]
    exact hobs3
  refine ⟨keys_perm_of_obs hobsF (keys_nodup_buildCandidates st orc sh1 uw us up)
    (keys_nodup_buildCandidates st orc sh2 uw us up), ?_⟩
  intro k
  have h := congrFun hobsF k
  simp only [obsMap] at h
  cases h1 : lookupD k (buildCandidates st orc sh1 uw us up) with
  | none =>
    cases h2 : lookupD k (buildCandidates st orc sh2 uw us up) with
    | none => rfl
    | some c2 =>
      rw [h1, h2] at h
      cases h
  | some c1 =>
    cases h2 : lookupD k (buildCandidates st orc sh2 uw us up) with
    | none =>
      rw [h1, h2] at h
      cases h
    | some c2 =>
      rw [h1, h2] at h
      have hc : obsCand c1 = obsCand c2 := by
        rw [show Option.map obsCand (some c1) = some (obsCand c1) from rfl,
          show Option.map obsCand (some c2) = some (obsCand c2) from rfl] at h
        exact Option.some.inj h
      rw [show (some c1).map (scoreCandidate dw) = some (scoreCandidate dw c1) from rfl,
        show (some c2).map (scoreCandidate dw) = some (scoreCandidate dw c2) from rfl,
        scoreCandidate_obs, scoreCandidate_obs, hc]

/-- A TMDB record fixture. -/
def cexObj (i : Int) (t : String) : TmdbObj :=
  { id := i, title := t, year := none, poster_path := none, vote_average := none }

/-- A profile with seven 10-rated films (seven similarity seeds). -/
def cexUD : UserData :=
  { watchlist := [], watched := [],
    ratings := [("s1", { score := 10, name := some "S1", year := none }),
                ("s2", { score := 10, name := some "S2", year := none }),
                ("s3", { score := 10, name := some "S3", year := none }),
                ("s4", { score := 10, name := some "S4", year := none }),
                ("s5", { score := 10, name := some "S5", year := none }),
                ("s6", { score := 10, name := some "S6", year := none }),
                ("s7", { score := 10, name := some "S7", year := none })],
    liked := [], watched_index := [] }

/-- Engine state with one user holding seven seeds. -/
def cexSt : EngineState :=
  { user_data := [("a", cexUD)], errors := [], global_watched_index := [], hasKey := true }

/-- A deterministic gateway: each seed title resolves, and each resolved
seed has exactly one recommendation with id `100 + seedId`. -/
def cexOrc : TmdbGateway :=
  { search := fun t _ =>
      if t = "S1" then some (cexObj 1 "S1")
      else if t = "S2" then some (cexObj 2 "S2")
      else if t = "S3" then some (cexObj 3 "S3")
      else if t = "S4" then some (cexObj 4 "S4")
      else if t = "S5" then some (cexObj 5 "S5")
      else if t = "S6" then some (cexObj 6 "S6")
      else if t = "S7" then some (cexObj 7 "S7")
      else none,
    recsFor := fun i => [cexObj (100 + i) ("R" ++ toString i)],
    popular := [] }

/-- C3 counterexample: over identical inputs, options and gateway
responses, two runs that only differ in the random shuffle outcome
produce different candidate sets — the seed cap `seeds[:6]` drops a
different seed.  Both shuffles are genuine permutations, yet the
candidate `"tmdb:107"` appears in one run's aggregation output and not
the other's. -/
theorem C3_cex_shuffle_dependent :
    (∀ l : List Seed, (List.reverse l).Perm l) ∧
    ("tmdb:107" ∈ keysOf (buildCandidates cexSt cexOrc List.reverse true true false)) ∧
    ("tmdb:107" ∉ keysOf (buildCandidates cexSt cexOrc id true true false)) := by
  refine ⟨fun l => List.reverse_perm l, ?_, ?_⟩
  · decide
  · decide



/-! ### Concrete fixtures and witnesses -/

/-- A gateway with no responses. -/
def noOrc : TmdbGateway := { search := fun _ _ => none, recsFor := fun _ => [], popular := [] }

/-- One watchlist entry fixture. -/
def wlEntry : WLDetails := { name := some "Dune", year := some (RawVal.num 2024) }

/-- A profile with a one-film watchlist. -/
def w1UD : UserData :=
  { watchlist := [("dune", wlEntry)], watched := [], ratings := [], liked := [],
    watched_index := [] }

/-- Engine state with one watchlist user, no api key, and one watched
index entry for an unrelated film. -/
def w1St : EngineState :=
  { user_data := [("alice", w1UD)], errors := [],
    global_watched_index := [("old", some 1999)], hasKey := false }

/-- The candidate the watchlist pass builds from `w1St`. -/
def w1Cand : Candidate :=
  { name := "Dune", yearV := .raw (RawVal.num 2024),
    url := "https://letterboxd.com/film/dune/",
    watchlist_users := ["alice"], similar_contributions := [],
    sources := ["Watchlist"], tmdb := none }

theorem C1_witness :
    is_watched w1St.global_watched_index w1Cand.name (effYear w1Cand.yearV) = false ∧
    (normTitle w1Cand.name, effYear w1Cand.yearV) ∉ w1St.global_watched_index :=
  ⟨(C1_no_watched_candidate w1St noOrc id true false false ("dune", w1Cand) (by decide)).1,
   (C1_no_watched_candidate w1St noOrc id true false false ("dune", w1Cand) (by decide)).2
     (by decide)⟩

theorem w1_mem_generate :
    finalize 0 ("dune", w1Cand) ∈ generate_recommendations w1St noOrc id true false false 0 := by
  have hbuild : buildCandidates w1St noOrc id true false false = [("dune", w1Cand)] := by
    decide
  unfold generate_recommendations
  rw [if_neg (by decide), hbuild]
  simp only [List.map_cons, List.map_nil]
  have hperm := List.mergeSort_perm [finalize 0 ("dune", w1Cand)]
    (fun a b => decide (b.score ≤ a.score))
  have hlen1 : (List.mergeSort [finalize 0 ("dune", w1Cand)]
      (fun a b => decide (b.score ≤ a.score))).length = 1 := by
    rw [hperm.length_eq]
    rfl
  rw [List.take_of_length_le (by rw [hlen1]; norm_num)]
  exact hperm.mem_iff.mpr (by simp)

theorem C2_witness :
    ∃ p ∈ buildCandidates w1St noOrc id true false false,
      finalize 0 ("dune", w1Cand) = finalize 0 p ∧
      (finalize 0 ("dune", w1Cand)).score = (p.2.watchlist_users.length : ℚ) * 100 +
        0 * ((p.2.similar_contributions.flatMap (fun q => q.2)).map Contribution.points).sum ∧
      ((0 : ℚ) = 0 →
        (finalize 0 ("dune", w1Cand)).score = (p.2.watchlist_users.length : ℚ) * 100) :=
  C2_score_formula w1St noOrc id true false false 0 (finalize 0 ("dune", w1Cand))
    w1_mem_generate

/-- A two-seed profile (both rated 10). -/
def w3UD : UserData :=
  { watchlist := [], watched := [],
    ratings := [("s1", { score := 10, name := some "S1", year := none }),
                ("s2", { score := 10, name := some "S2", year := none })],
    liked := [], watched_index := [] }

/-- Engine state with one user holding two seeds. -/
def w3St : EngineState :=
  { user_data := [("a", w3UD)], errors := [], global_watched_index := [], hasKey := true }

theorem C3_witness :
    (keysOf (buildCandidates w3St cexOrc List.reverse true true false)).Perm
      (keysOf (buildCandidates w3St cexOrc id true true false)) ∧
    (lookupD "tmdb:101" (buildCandidates w3St cexOrc List.reverse true true false)).map
        (scoreCandidate 1)
      = (lookupD "tmdb:101" (buildCandidates w3St cexOrc id true true false)).map
        (scoreCandidate 1) :=
  ⟨(C3_bounded_seed_stability w3St cexOrc List.reverse id true true false 1
      (fun l => List.reverse_perm l) (fun l => List.Perm.refl l) (by decide)).1,
   (C3_bounded_seed_stability w3St cexOrc List.reverse id true true false 1
      (fun l => List.reverse_perm l) (fun l => List.Perm.refl l) (by decide)).2 "tmdb:101"⟩

theorem C4_witness :
    (keysOf (contribute [] (contribute [] [] "k" "A" none "u1" none none (wlMut "alice"))
        "k" "B" none "u2" none none
        (simMut "bob" { points := 100, from_movie := "Seed", from_score := 10 }))).count "k"
      = 1 ∧
    ∃ c, lookupD "k" (contribute [] (contribute [] [] "k" "A" none "u1" none none
        (wlMut "alice")) "k" "B" none "u2" none none
        (simMut "bob" { points := 100, from_movie := "Seed", from_score := 10 })) = some c ∧
      ∀ s, s ∈ c.sources ↔ (s = "Watchlist" ∨ s = "Similar") :=
  C4_dedup_merge.2 [] [] "k" "A" "B" none none "u1" "u2" none none none "alice" "bob"
    { points := 100, from_movie := "Seed", from_score := 10 } (by decide) (by decide)
    (by decide)

/-- The candidate the similarity pass builds under `w3St` for the first
seed's recommendation. -/
def w3Cand : Candidate :=
  { name := "R1", yearV := .parsed none, url := "https://www.themoviedb.org/movie/101",
    watchlist_users := [],
    similar_contributions := [("a", [{ points := 100, from_movie := "S1", from_score := 10 }])],
    sources := ["Similar"], tmdb := some (cexObj 101 "R1") }

theorem C5_witness :
    scoreCandidate 0 (wlMut "bob" w1Cand) = scoreCandidate 0 w1Cand + 100 ∧
    scoreCandidate 0 w3Cand ≤ scoreCandidate 1 w3Cand ∧
    scoreCandidate 0 w3Cand < scoreCandidate 1 w3Cand :=
  ⟨C5_score_monotonicity.1 0 "bob" w1Cand (by decide),
   (C5_score_monotonicity.2 w3St cexOrc id true true false ("tmdb:101", w3Cand)
     (by decide)).1,
   (C5_score_monotonicity.2 w3St cexOrc id true true false ("tmdb:101", w3Cand)
     (by decide)).2 (by decide)⟩

theorem C6_witness :
    ({ points := 100, from_movie := "S1", from_score := 10 } : Contribution).points
      = pointsOf ({ points := 100, from_movie := "S1", from_score := 10 } :
          Contribution).from_score ∧
    pointsOf 7 = 25 :=
  ⟨(C6_points_step w3St cexOrc id true true false ("tmdb:101", w3Cand) (by decide)).1
      ("a", [{ points := 100, from_movie := "S1", from_score := 10 }]) (by decide)
      { points := 100, from_movie := "S1", from_score := 10 } (by decide),
   (C6_points_step w3St cexOrc id true true false ("tmdb:101", w3Cand)
      (by decide)).2.2.2.2 7 (by decide) (by decide) (by decide)⟩

/-- A film record with an integer rating of 9. -/
def w7Films : List (String × RawFilm) :=
  [("film", { name := some "F", year := RawVal.null, liked := false,
              rating := RawVal.num 9 })]

theorem C7_witness :
    0 ≤ ({ score := 9, name := some "F", year := some RawVal.null } : RatingData).score :=
  (C7_rating_entries w7Films "film"
    { score := 9, name := some "F", year := some RawVal.null } (by decide)).1

/-- Engine state with twenty distinct watchlist entries and no api key. -/
def w8St : EngineState :=
  { user_data := [("u",
      { watchlist := (List.range 20).map
          (fun i => ("m" ++ toString i,
            ({ name := some ("M" ++ toString i), year := none } : WLDetails))),
        watched := [], ratings := [], liked := [], watched_index := [] })],
    errors := [], global_watched_index := [], hasKey := false }

/-- Engine state with no fetched user data and an api key. -/
def em8St : EngineState :=
  { user_data := [], errors := [], global_watched_index := [], hasKey := true }

theorem C8_witness :
    (buildCandidates w8St noOrc id true false true
      = buildCandidates w8St noOrc id true false false) ∧
    (pass3 em8St noOrc true (pass2 em8St noOrc id false (pass1 em8St noOrc true []))
      = (tmdb_get_popular noOrc).foldl (popStep em8St.global_watched_index)
          (pass2 em8St noOrc id false (pass1 em8St noOrc true []))) ∧
    (pass3 w8St noOrc false (pass2 w8St noOrc id false (pass1 w8St noOrc true []))
      = pass2 w8St noOrc id false (pass1 w8St noOrc true [])) :=
  ⟨(C8_popular_guard w8St noOrc id true false).1 (by decide),
   (C8_popular_guard em8St noOrc id true false).2.1 rfl (by decide),
   (C8_popular_guard w8St noOrc id true false).2.2.1⟩

/-- A catalog gateway that fails for bob and returns empty data for
everyone else. -/
def w9G : CatalogGateway := fun u =>
  if u = "bob" then Except.error "boom" else Except.ok { watchlist := [], films := [] }

theorem C9_witness :
    ("bob: boom" ∈ (fetch_data w9G ["alice", "bob"] false).errors) ∧
    lookupD "alice" (fetch_data w9G ["alice", "bob"] false).user_data
      = some (mkProfile { watchlist := [], films := [] }) :=
  ⟨(C9_fetch_isolation w9G ["alice", "bob"] false "bob" "boom" (by decide) rfl
      (by decide)).1,
   (C9_fetch_isolation w9G ["alice", "bob"] false "bob" "boom" (by decide) rfl
      (by decide)).2.2.2 "alice" { watchlist := [], films := [] } (by decide) rfl⟩

/-- A gateway with a nonempty popularity page. -/
def w10Orc : TmdbGateway :=
  { search := fun _ _ => none, recsFor := fun _ => [], popular := [cexObj 9 "P"] }

theorem C10_witness :
    generate_recommendations em8St w10Orc id true true true 1 = [] :=
  C10_empty_without_data em8St w10Orc id true true true 1 rfl


end Vennboxd
